import Mathlib

/-!
# Vehicle-title registry chaincode (`car_lease_cc.go`)

A shallow embedding of the chaincode's handlers (`init`, `Run`, `Delete`, `Query`,
`Write`, `init_v5c`, `set_owner`, `update_v5c`) together with the library calls they
depend on: the ledger stub of the chaincode shim, `encoding/json` for the two types the
program marshals (`V5C` and `[]string`), `strconv.Atoi` / `strconv.Itoa` and
`strings.ToLower`.

Text (Go `string` and the `[]byte` values the program moves around) is modelled as the
sequence of its Unicode scalar values, i.e. all text is taken to be valid UTF-8.
Console output (`fmt.Println`) is not part of the model.
-/

namespace CarLease

/-- Go `string` / `[]byte` holding UTF-8 text, as its sequence of code points. -/
abbrev Text := List Char

/-! ## `encoding/json`: string literals -/

/-- JSON insignificant whitespace (`isSpace` of the scanner). -/
def isSpace (c : Char) : Bool :=
  c = ' ' || c = '\t' || c = '\r' || c = '\n'

/-- Drop leading JSON whitespace. -/
def skipSpace : Text → Text
  | [] => []
  | c :: cs => if isSpace c then skipSpace cs else c :: cs

/-- Value of one hexadecimal digit, either case. -/
def hexVal (c : Char) : Option Nat :=
  if '0' ≤ c ∧ c ≤ '9' then some (c.toNat - 48)
  else if 'a' ≤ c ∧ c ≤ 'f' then some (c.toNat - 87)
  else if 'A' ≤ c ∧ c ≤ 'F' then some (c.toNat - 55)
  else none

/-- The four hex digits of a `\u` escape as a number (`getu4`). -/
def getu4 (a b c d : Char) : Option Nat :=
  match hexVal a, hexVal b, hexVal c, hexVal d with
  | some x, some y, some z, some w => some (((x * 16 + y) * 16 + z) * 16 + w)
  | _, _, _, _ => none

/-- The replacement character U+FFFD. -/
def replacementChar : Char := Char.ofNat 0xFFFD

/-- A high surrogate that was read and is still waiting for its low half decodes to the
replacement character once it is known that no low half follows. -/
def flushPending (p : Option Nat) : Text :=
  match p with
  | none => []
  | some _ => [replacementChar]

/-- Prepend already decoded text to the result of decoding the remainder. -/
def pushText (pre : Text) (r : Option (Text × Text)) : Option (Text × Text) :=
  match r with
  | none => none
  | some (s, rest) => some (pre ++ s, rest)

/-- The one-character escapes the scanner accepts after a backslash. -/
def simpleEscape (e : Char) : Option Char :=
  if e = '"' then some '"'
  else if e = '\\' then some '\\'
  else if e = '/' then some '/'
  else if e = 'b' then some (Char.ofNat 8)
  else if e = 'f' then some (Char.ofNat 12)
  else if e = 'n' then some '\n'
  else if e = 'r' then some '\r'
  else if e = 't' then some '\t'
  else none

/-- Combine a UTF-16 surrogate pair (`utf16.DecodeRune`). -/
def decodeSurrogates (hi lo : Nat) : Char :=
  Char.ofNat ((hi - 0xD800) * 0x400 + (lo - 0xDC00) + 0x10000)

/-- Read a JSON string literal whose opening quote has been consumed: the decoded text
and the input after the closing quote, or `none` when the literal is malformed (raw
control character, bad escape, missing closing quote). `p` is a pending high surrogate
from the `\u` escape just before the current position; surrogate halves that do not pair
up decode to U+FFFD, as in `unquote`. -/
def unquoteFrom : Option Nat → Text → Option (Text × Text)
  | _, [] => none
  | p, c :: cs =>
    if c = '"' then some (flushPending p, cs)
    else if c = '\\' then
      match cs with
      | [] => none
      | e :: rest =>
        if e = 'u' then
          match rest with
          | a :: b :: c3 :: d :: rest4 =>
            match getu4 a b c3 d with
            | none => none
            | some n =>
              if 0xD800 ≤ n ∧ n < 0xDC00 then
                pushText (flushPending p) (unquoteFrom (some n) rest4)
              else if 0xDC00 ≤ n ∧ n < 0xE000 then
                match p with
                | some hi => pushText [decodeSurrogates hi n] (unquoteFrom none rest4)
                | none => pushText [replacementChar] (unquoteFrom none rest4)
              else pushText (flushPending p ++ [Char.ofNat n]) (unquoteFrom none rest4)
          | _ => none
        else
          match simpleEscape e with
          | none => none
          | some x => pushText (flushPending p ++ [x]) (unquoteFrom none rest)
    else if c.toNat < 0x20 then none
    else pushText (flushPending p ++ [c]) (unquoteFrom none cs)

/-- Lower-case hex digit table of the encoder (`hex[b]`). -/
def hexDigit (n : Nat) : Char :=
  "0123456789abcdef".toList.getD n '0'

/-- How `json.Marshal` writes one character of a string (HTML escaping on, as it is for
`json.Marshal`): quote and backslash get a backslash, newline, carriage return and tab
their short escapes, the other control characters and `<`, `>`, `&` a `\u00xx` escape,
U+2028 and U+2029 a `\u202x` escape; everything else is copied. -/
def escapeChar (c : Char) : Text :=
  if c = '"' then ['\\', '"']
  else if c = '\\' then ['\\', '\\']
  else if c = '\n' then ['\\', 'n']
  else if c = '\r' then ['\\', 'r']
  else if c = '\t' then ['\\', 't']
  else if c.toNat < 0x20 ∨ c = '<' ∨ c = '>' ∨ c = '&' then
    ['\\', 'u', '0', '0', hexDigit (c.toNat / 16), hexDigit (c.toNat % 16)]
  else if c.toNat = 0x2028 ∨ c.toNat = 0x2029 then
    ['\\', 'u', '2', '0', '2', hexDigit (c.toNat % 16)]
  else [c]

/-- Body of a marshalled string, without the surrounding quotes. -/
def escapeText : Text → Text
  | [] => []
  | c :: cs => escapeChar c ++ escapeText cs

/-- Go `json.Marshal` of a `string`. -/
def marshalString (s : Text) : Text :=
  '"' :: (escapeText s ++ ['"'])

/-! ## `encoding/json`: values -/

/-- Decimal digit test. -/
def isDigit (c : Char) : Bool :=
  decide ('0' ≤ c) && decide (c ≤ '9')

/-- Drop leading decimal digits. -/
def skipDigits : Text → Text
  | [] => []
  | c :: cs => if isDigit c then skipDigits cs else c :: cs

/-- Optional exponent part of a number; the input after it. -/
def scanExp (cs : Text) : Option Text :=
  match cs with
  | [] => some []
  | e :: r =>
    if e = 'e' ∨ e = 'E' then
      match (match r with
        | [] => r
        | s :: t => if s = '+' ∨ s = '-' then t else r) with
      | [] => none
      | d :: t => if isDigit d then some (skipDigits t) else none
    else some cs

/-- Optional fraction part of a number, then the exponent. -/
def scanFrac (cs : Text) : Option Text :=
  match cs with
  | [] => some []
  | p :: r =>
    if p = '.' then
      match r with
      | [] => none
      | d :: t => if isDigit d then scanExp (skipDigits t) else none
    else scanExp cs

/-- Integer part of a number after the optional minus sign. -/
def scanInt (cs : Text) : Option Text :=
  match cs with
  | [] => none
  | c :: r =>
    if c = '0' then scanFrac r
    else if isDigit c then scanFrac (skipDigits r)
    else none

/-- A JSON number literal at the head of the input; the input after it. -/
def scanNumber (cs : Text) : Option Text :=
  match cs with
  | [] => none
  | c :: r => if c = '-' then scanInt r else scanInt cs

/-- The literals `true`, `false` and `null`: `some false` for the booleans, `some true`
for `null`, with the input after the literal. -/
def scanLiteral (cs : Text) : Option (Bool × Text) :=
  match cs with
  | 't' :: 'r' :: 'u' :: 'e' :: r => some (false, r)
  | 'f' :: 'a' :: 'l' :: 's' :: 'e' :: r => some (false, r)
  | 'n' :: 'u' :: 'l' :: 'l' :: r => some (true, r)
  | _ => none

/-- What a JSON value nested inside the top-level value looks like to a decoder whose
targets are strings: a string literal with its text, `null`, a number or boolean, or an
array or object (whose content is only checked for syntax). -/
inductive Shallow where
  | null : Shallow
  | scalar : Shallow
  | str (s : Text) : Shallow
  | composite : Shallow
  deriving DecidableEq, Repr

/-- A parsed JSON value, one level deep: arrays keep their elements and objects their
members (key text and value) in input order. -/
inductive JValue where
  | null : JValue
  | scalar : JValue
  | str (s : Text) : JValue
  | arr (elems : List Shallow) : JValue
  | obj (members : List (Text × Shallow)) : JValue
  deriving DecidableEq, Repr

/-- Forget the content of arrays and objects. -/
def JValue.shallow : JValue → Shallow
  | .null => .null
  | .scalar => .scalar
  | .str s => .str s
  | .arr _ => .composite
  | .obj _ => .composite

/-- Attach a parsed head to the parse of the remaining list items. -/
def consItem {α : Type} (x : α) (r : Option (List α × Text)) : Option (List α × Text) :=
  match r with
  | none => none
  | some (xs, rest) => some (x :: xs, rest)

mutual
/-- Parse one JSON value at the head of the input (leading whitespace already skipped):
the value and the input after it, or `none` on a syntax error. The first argument bounds
the number of nested calls; the input length plus one is always enough
(`parseJSON_complete`). -/
def scanValue : Nat → Text → Option (JValue × Text)
  | 0, _ => none
  | _, [] => none
  | fuel + 1, c :: cs =>
    if c = '"' then
      match unquoteFrom none cs with
      | none => none
      | some (s, r) => some (.str s, r)
    else if c = '[' then
      match skipSpace cs with
      | [] => none
      | d :: r =>
        if d = ']' then some (.arr [], r)
        else
          match scanElems fuel (d :: r) with
          | none => none
          | some (es, r1) => some (.arr es, r1)
    else if c = '\x7b' then
      match skipSpace cs with
      | [] => none
      | d :: r =>
        if d = '\x7d' then some (.obj [], r)
        else
          match scanMembers fuel (d :: r) with
          | none => none
          | some (ms, r1) => some (.obj ms, r1)
    else
      match scanLiteral (c :: cs) with
      | some (isNull, r) => some (if isNull then .null else .scalar, r)
      | none =>
        match scanNumber (c :: cs) with
        | none => none
        | some r => some (.scalar, r)
/-- Parse the elements of a non-empty array, the input standing at the first character
of an element, up to and including the closing bracket. -/
def scanElems : Nat → Text → Option (List Shallow × Text)
  | 0, _ => none
  | fuel + 1, cs =>
    match scanValue fuel cs with
    | none => none
    | some (v, r) =>
      match skipSpace r with
      | [] => none
      | d :: r1 =>
        if d = ',' then consItem v.shallow (scanElems fuel (skipSpace r1))
        else if d = ']' then some ([v.shallow], r1)
        else none
/-- Parse the members of a non-empty object, the input standing at the first character
of a key, up to and including the closing brace. -/
def scanMembers : Nat → Text → Option (List (Text × Shallow) × Text)
  | 0, _ => none
  | _, [] => none
  | fuel + 1, c :: cs =>
    if c = '"' then
      match unquoteFrom none cs with
      | none => none
      | some (k, r) =>
        match skipSpace r with
        | [] => none
        | d :: r1 =>
          if d = ':' then
            match scanValue fuel (skipSpace r1) with
            | none => none
            | some (v, r2) =>
              match skipSpace r2 with
              | [] => none
              | e :: r3 =>
                if e = ',' then consItem (k, v.shallow) (scanMembers fuel (skipSpace r3))
                else if e = '\x7d' then some ([(k, v.shallow)], r3)
                else none
          else none
    else none
end

/-- Parse a complete JSON text: one value surrounded by optional whitespace and nothing
else (`checkValid` followed by the decode of the value). -/
def parseJSON (data : Text) : Option JValue :=
  match scanValue (data.length + 1) (skipSpace data) with
  | none => none
  | some (v, r) => if skipSpace r = [] then some v else none

/-! ## `encoding/json`: the two Go types the program marshals -/

/-- The `V5C` struct. -/
structure V5C where
  Id : Text
  Vin : Text
  Make : Text
  Model : Text
  Rego : Text
  Owner : Text
  deriving DecidableEq, Repr

/-- The zero value `V5C{}`. -/
def V5C.zero : V5C := ⟨[], [], [], [], [], []⟩

/-- Case folding of one character of an object key when it is matched against a struct
field name: ASCII letters fold to upper case, and the Kelvin sign and the long s fold to
`K` and `S`, the only non-ASCII characters that fold to an ASCII letter. -/
def foldRune (c : Char) : Char :=
  if 'a' ≤ c ∧ c ≤ 'z' then Char.ofNat (c.toNat - 32)
  else if c.toNat = 0x212A then 'K'
  else if c.toNat = 0x017F then 'S'
  else c

/-- Whether an object key selects the struct field with the given (ASCII) JSON name:
an exact match or, failing that, a case-insensitive one. -/
def nameMatches (name : String) (key : Text) : Bool :=
  key.map foldRune = name.toList.map foldRune

/-- Store a decoded string into the field an object key selects; keys that select no
field are skipped. -/
def assignField (r : V5C) (key : Text) (s : Text) : V5C :=
  if nameMatches "id" key then { r with Id := s }
  else if nameMatches "vin" key then { r with Vin := s }
  else if nameMatches "make" key then { r with Make := s }
  else if nameMatches "model" key then { r with Model := s }
  else if nameMatches "rego" key then { r with Rego := s }
  else if nameMatches "owner" key then { r with Owner := s }
  else r

/-- Whether an object key selects one of the six fields. -/
def isFieldKey (key : Text) : Bool :=
  nameMatches "id" key || nameMatches "vin" key || nameMatches "make" key ||
    nameMatches "model" key || nameMatches "rego" key || nameMatches "owner" key

/-- Decode one object member into the struct: a string value is stored, `null` leaves the
field alone, any other value for a known field is a type error that is recorded while
decoding goes on. The boolean is the recorded error. -/
def decodeMember (acc : V5C × Bool) (m : Text × Shallow) : V5C × Bool :=
  if isFieldKey m.1 then
    match m.2 with
    | .str s => (assignField acc.1 m.1 s, acc.2)
    | .null => acc
    | _ => (acc.1, true)
  else acc

/-- Go `json.Unmarshal(data, &res)` for `res` of type `V5C`: the struct afterwards and
whether an error was returned. Invalid JSON and a top-level value that is not an object
leave the struct untouched. -/
def jsonUnmarshalV5C (data : Text) (res : V5C) : V5C × Bool :=
  match parseJSON data with
  | none => (res, true)
  | some (.obj ms) => ms.foldl decodeMember (res, false)
  | some .null => (res, false)
  | some _ => (res, true)

/-- Go `json.Marshal` of a `V5C`: the six fields in declaration order under their JSON
names, without any whitespace. -/
def jsonMarshalV5C (r : V5C) : Text :=
  "\x7b\"id\":".toList ++ marshalString r.Id ++
  ",\"vin\":".toList ++ marshalString r.Vin ++
  ",\"make\":".toList ++ marshalString r.Make ++
  ",\"model\":".toList ++ marshalString r.Model ++
  ",\"rego\":".toList ++ marshalString r.Rego ++
  ",\"owner\":".toList ++ marshalString r.Owner ++ "\x7d".toList

/-- A Go `[]string`: `none` is the nil slice. -/
abbrev StringSlice := Option (List Text)

/-- The elements of a slice as a sequence; the nil slice has none. -/
def StringSlice.elems (v : StringSlice) : List Text :=
  match v with
  | none => []
  | some xs => xs

/-- What an array element decodes to in a `string` slot that holds the zero value. -/
def elemText : Shallow → Text
  | .str s => s
  | _ => []

/-- Whether an array element is a type error for a `string` slot. -/
def elemBad : Shallow → Bool
  | .str _ => false
  | .null => false
  | _ => true

/-- Go `json.Unmarshal(data, &v)` for `v` a nil `[]string` (the program always passes a
freshly declared slice): the slice afterwards and whether an error was returned. An array
yields a slice with one entry per element, `null` and invalid or non-array input leave
the slice nil. -/
def jsonUnmarshalStrings (data : Text) : StringSlice × Bool :=
  match parseJSON data with
  | none => (none, true)
  | some (.arr es) => (some (es.map elemText), es.any elemBad)
  | some .null => (none, false)
  | some _ => (none, true)

/-- The marshalled elements of a slice, separated by commas. -/
def marshalElems : List Text → Text
  | [] => []
  | [x] => marshalString x
  | x :: y :: rest => marshalString x ++ ',' :: marshalElems (y :: rest)

/-- Go `json.Marshal` of a `[]string`: `null` for the nil slice, otherwise an array. -/
def jsonMarshalStrings (v : StringSlice) : Text :=
  match v with
  | none => "null".toList
  | some xs => '[' :: (marshalElems xs ++ [']'])

/-! ## `strings.ToLower`, `strconv.Atoi`, `strconv.Itoa` -/

/-- Go `unicode.ToLower`: the ASCII range is handled in place, other characters are looked
up in the Unicode case tables, which are passed in as `caseTable`. -/
def toLowerRune (caseTable : Char → Char) (c : Char) : Char :=
  if c.toNat ≤ 0x7F then
    if 'A' ≤ c ∧ c ≤ 'Z' then Char.ofNat (c.toNat + 32) else c
  else caseTable c

/-- Go `strings.ToLower`. -/
def ToLower (caseTable : Char → Char) (s : Text) : Text :=
  s.map (toLowerRune caseTable)

/-- Value of a non-empty string of decimal digits, most significant first, given the
value of the digits read so far. -/
def digitsValue : Nat → Text → Option Nat
  | _, [] => none
  | acc, [c] => if isDigit c then some (acc * 10 + (c.toNat - 48)) else none
  | acc, c :: d :: rest =>
    if isDigit c then digitsValue (acc * 10 + (c.toNat - 48)) (d :: rest) else none

/-- Width of Go `int` on the platform. -/
def intSize : Nat := 64

/-- Go `strconv.Atoi`: an optional sign followed by decimal digits whose value fits in an
`int`; `none` is the error result. -/
def Atoi (s : Text) : Option Int :=
  match s with
  | [] => none
  | c :: r =>
    if c = '-' then
      match digitsValue 0 r with
      | none => none
      | some n => if n ≤ 2 ^ (intSize - 1) then some (-(n : Int)) else none
    else
      match digitsValue 0 (if c = '+' then r else s) with
      | none => none
      | some n => if n < 2 ^ (intSize - 1) then some (n : Int) else none

/-- Go `strconv.Itoa`. -/
def Itoa (i : Int) : Text :=
  if i < 0 then '-' :: Nat.toDigits 10 i.natAbs else Nat.toDigits 10 i.toNat

/-! ## The ledger stub -/

/-- Go `error` values the handlers return: one made with `errors.New`, or the error a
failed stub call handed back. -/
inductive GoError where
  | new (msg : String) : GoError
  | shim : GoError
  deriving DecidableEq, Repr

/-- The chaincode stub as the handlers see it: the ledger state, a map from keys to
values, and the outcomes of the stub calls still to come (`true`: the call fails; once
the list is used up every call goes through). -/
structure Stub where
  state : Text → Option Text
  faults : List Bool

/-- Whether the next stub call fails. -/
def Stub.nextFails (stub : Stub) : Bool :=
  stub.faults.headD false

/-- The stub after one call has been answered. -/
def Stub.advance (stub : Stub) : Stub :=
  { stub with faults := stub.faults.tail }

/-- Stub call `GetState`: `none` when the call fails, otherwise the value at the key. A
key without an entry reads as a nil value with a nil error. -/
def GetState (stub : Stub) (key : Text) : Option Text × Stub :=
  if stub.nextFails then (none, stub.advance)
  else (some ((stub.state key).getD []), stub.advance)

/-- Stub call `PutState`: whether the call failed, and the stub afterwards. A failed call
writes nothing. -/
def PutState (stub : Stub) (key : Text) (value : Text) : Bool × Stub :=
  if stub.nextFails then (true, stub.advance)
  else (false, { state := fun k => if k = key then some value else stub.state k,
                 faults := stub.faults.tail })

/-- Stub call `DelState`: whether the call failed, and the stub afterwards. Removing a
key without an entry is not a failure. -/
def DelState (stub : Stub) (key : Text) : Bool × Stub :=
  if stub.nextFails then (true, stub.advance)
  else (false, { state := fun k => if k = key then none else stub.state k,
                 faults := stub.faults.tail })

/-! ## The handlers -/

/-- What a handler returns, `([]byte, error)`, together with the stub as the handler
leaves it. A nil payload is the empty text. -/
structure Outcome where
  payload : Text
  err : Option GoError
  stub : Stub

/-- Handler result `return nil, errors.New(msg)`. -/
def failWith (msg : String) (stub : Stub) : Outcome :=
  ⟨[], some (.new msg), stub⟩

/-- Name of the key that stores the list of all known v5c. -/
def v5cIndexStr : Text := "_v5cindex".toList

/-- Handler `init`: reset all the things. -/
def init (stub : Stub) (args : List Text) : Outcome :=
  match args with
  | [a] =>
    match Atoi a with
    | none => failWith "Expecting integer value for asset holding" stub
    | some Aval =>
      match PutState stub "abc".toList (Itoa Aval) with
      | (true, stub1) => ⟨[], some .shim, stub1⟩
      | (false, stub1) =>
        match PutState stub1 v5cIndexStr (jsonMarshalStrings none) with
        | (true, stub2) => ⟨[], some .shim, stub2⟩
        | (false, stub2) => ⟨[], none, stub2⟩
  | _ => failWith "Incorrect number of arguments. Expecting 1" stub

/-- The removal loop of `Delete`: drop the first entry equal to `id`, then stop. -/
def removeFirst (id : Text) : List Text → List Text
  | [] => []
  | val :: rest => if val = id then rest else val :: removeFirst id rest

/-- Handler `Delete`: remove a key/value pair from state and its id from the index. The
result of the final `PutState` is assigned and not looked at. -/
def Delete (stub : Stub) (args : List Text) : Outcome :=
  match args with
  | [id] =>
    match DelState stub id with
    | (true, stub1) => failWith "Failed to delete state" stub1
    | (false, stub1) =>
      match GetState stub1 v5cIndexStr with
      | (none, stub2) => failWith "Failed to get v5c index" stub2
      | (some v5csAsBytes, stub2) =>
        let v5cIndex : StringSlice := (jsonUnmarshalStrings v5csAsBytes).1
        let v5cIndex1 : StringSlice := v5cIndex.map (removeFirst id)
        ⟨[], none, (PutState stub2 v5cIndexStr (jsonMarshalStrings v5cIndex1)).2⟩
  | _ => failWith "Incorrect number of arguments. Expecting 1" stub

/-- Handler `Query`: read a variable from chaincode state. -/
def Query (stub : Stub) (function : Text) (args : List Text) : Outcome :=
  if function ≠ "query".toList then
    failWith "Invalid query function name. Expecting \"query\"" stub
  else
    match args with
    | [id] =>
      match GetState stub id with
      | (none, stub1) =>
        failWith ("\x7b\"Error\":\"Failed to get state for " ++ String.mk id ++ "\"\x7d") stub1
      | (some valAsbytes, stub1) => ⟨valAsbytes, none, stub1⟩
    | _ => failWith "Incorrect number of arguments. Expecting id of the v5c to query" stub

/-- Handler `Write`: write variable into chaincode state. -/
def Write (stub : Stub) (args : List Text) : Outcome :=
  match args with
  | [id, value] =>
    match PutState stub id value with
    | (true, stub1) => ⟨[], some .shim, stub1⟩
    | (false, stub1) => ⟨[], none, stub1⟩
  | _ =>
    failWith "Incorrect number of arguments. Expecting 2. id of the variable and value to set"
      stub

/-- The record text `init_v5c` builds by concatenation. -/
def v5cString (id vin mk model rego owner : Text) : Text :=
  "\x7b\"id\": \"".toList ++ id ++ "\", \"vin\": \"".toList ++ vin ++
  "\", \"make\": \"".toList ++ mk ++ "\", \"model\": \"".toList ++ model ++
  "\", \"rego\": \"".toList ++ rego ++ "\", \"owner\": \"".toList ++ owner ++
  "\"\x7d".toList

/-- Go `append(v5cIndex, id)`. -/
def appendId (v5cIndex : StringSlice) (id : Text) : StringSlice :=
  some (v5cIndex.elems ++ [id])

/-- Handler `init_v5c`: create a new v5c, store into chaincode state. The result of the
final `PutState` is assigned and not looked at. -/
def init_v5c (caseTable : Char → Char) (stub : Stub) (args : List Text) : Outcome :=
  match args with
  | [a0, a1, a2, a3, a4, a5] =>
    if a0.length ≤ 0 then failWith "1st argument must be a non-empty string" stub
    else if a5.length ≤ 0 then failWith "6th argument must be a non-empty string" stub
    else
      let str := v5cString a0 (ToLower caseTable a1) (ToLower caseTable a2)
        (ToLower caseTable a3) (ToLower caseTable a4) (ToLower caseTable a5)
      match PutState stub a0 str with
      | (true, stub1) => ⟨[], some .shim, stub1⟩
      | (false, stub1) =>
        match GetState stub1 v5cIndexStr with
        | (none, stub2) => failWith "Failed to get v5c index" stub2
        | (some v5csAsBytes, stub2) =>
          let v5cIndex : StringSlice := (jsonUnmarshalStrings v5csAsBytes).1
          let v5cIndex1 : StringSlice := appendId v5cIndex a0
          ⟨[], none, (PutState stub2 v5cIndexStr (jsonMarshalStrings v5cIndex1)).2⟩
  | _ => failWith "Incorrect number of arguments. Expecting 6" stub

/-- Handler `set_owner`: transfer ownership on a V5C. Arguments past the second are not
looked at. -/
def set_owner (stub : Stub) (args : List Text) : Outcome :=
  match args with
  | a0 :: a1 :: _ =>
    match GetState stub a0 with
    | (none, stub1) => failWith "Failed to get thing" stub1
    | (some v5cAsBytes, stub1) =>
      let res : V5C := (jsonUnmarshalV5C v5cAsBytes V5C.zero).1
      let res1 : V5C := { res with Owner := a1 }
      match PutState stub1 a0 (jsonMarshalV5C res1) with
      | (true, stub2) => ⟨[], some .shim, stub2⟩
      | (false, stub2) => ⟨[], none, stub2⟩
  | _ => failWith "Incorrect number of arguments. Expecting 2" stub

/-- Handler `update_v5c`: overwrite vin, make, model and rego of a V5C. Arguments past the
fifth are not looked at. -/
def update_v5c (stub : Stub) (args : List Text) : Outcome :=
  match args with
  | a0 :: a1 :: a2 :: a3 :: a4 :: _ =>
    match GetState stub a0 with
    | (none, stub1) => failWith "Failed to get thing" stub1
    | (some v5cAsBytes, stub1) =>
      let res : V5C := (jsonUnmarshalV5C v5cAsBytes V5C.zero).1
      let res1 : V5C := { res with Vin := a1, Make := a2, Model := a3, Rego := a4 }
      match PutState stub1 a0 (jsonMarshalV5C res1) with
      | (true, stub2) => ⟨[], some .shim, stub2⟩
      | (false, stub2) => ⟨[], none, stub2⟩
  | _ => failWith "Incorrect number of arguments. Expecting 5" stub

/-- Handler `Run`: the entry point, dispatching on the function name. -/
def Run (caseTable : Char → Char) (stub : Stub) (function : Text) (args : List Text) :
    Outcome :=
  if function = "init".toList then init stub args
  else if function = "delete".toList then Delete stub args
  else if function = "write".toList then Write stub args
  else if function = "init_v5c".toList then init_v5c caseTable stub args
  else if function = "set_owner".toList then set_owner stub args
  else if function = "update_v5c".toList then update_v5c stub args
  else failWith "Received unknown function invocation" stub

/-! ## Reading the ledger -/

/-- The index as the program decodes it: the bytes at the index key, a key without an
entry reading as no bytes, unmarshalled into a fresh slice. -/
def decodedIndex (stub : Stub) : List Text :=
  (jsonUnmarshalStrings ((stub.state v5cIndexStr).getD [])).1.elems

/-- The record the program decodes from a value: `json.Unmarshal` into `V5C{}` with the
error dropped. -/
def decodeRecord (data : Text) : V5C :=
  (jsonUnmarshalV5C data V5C.zero).1

/-- A ledger without entries whose stub calls all go through. -/
def emptyStub : Stub := ⟨fun _ => none, []⟩

/-! ## Vocabulary of the statements -/

/-- Text that can stand between double quotes as it is: no double quote, no backslash
and no control character. -/
def PlainText (s : Text) : Prop :=
  ∀ c ∈ s, c ≠ '"' ∧ c ≠ '\\' ∧ 0x20 ≤ c.toNat

/-- One object member as `json.Marshal` writes it, followed by `tl`. -/
def memberText (k s tl : Text) : Text :=
  '"' :: (k ++ '"' :: ':' :: '"' :: (escapeText s ++ '"' :: tl))

/-- One object member as `init_v5c` writes it (a space after the colon, the value copied
as it is), followed by `tl`. -/
def spacedMember (k s tl : Text) : Text :=
  '"' :: (k ++ '"' :: ':' :: ' ' :: '"' :: (s ++ '"' :: tl))

/-- The members of a record object with six string values under the six field names. -/
def recordMembers (r : V5C) : List (Text × Shallow) :=
  [("id".toList, .str r.Id), ("vin".toList, .str r.Vin), ("make".toList, .str r.Make),
   ("model".toList, .str r.Model), ("rego".toList, .str r.Rego),
   ("owner".toList, .str r.Owner)]

instance (s : Text) : Decidable (PlainText s) := by
  unfold PlainText
  infer_instance

/-- The record that creation is specified to leave at the id: the id as passed and the
other five fields lower-cased. -/
def expectedRecord (caseTable : Char → Char) (id vin mk model rego owner : Text) : V5C :=
  ⟨id, ToLower caseTable vin, ToLower caseTable mk, ToLower caseTable model,
    ToLower caseTable rego, ToLower caseTable owner⟩

/-- What `Query("query", [id])` returns once `init_v5c` has run on a stub. -/
def createdBytes (caseTable : Char → Char) (stub : Stub) (args : List Text) : Text :=
  (Query (init_v5c caseTable stub args).stub "query".toList [args.headD []]).payload

/-- The ledger of the running example: `init(["100"])` on the empty ledger, then
`init_v5c(["V1","1HGCM82633A004352","Honda","Civic","ABC123","Alice"])`. -/
def demoStub : Stub :=
  (init_v5c (fun c => c) (init emptyStub ["100".toList]).stub
    ["V1".toList, "1HGCM82633A004352".toList, "Honda".toList, "Civic".toList,
      "ABC123".toList, "Alice".toList]).stub

/-- One call of a record handler with its arguments. -/
inductive Call where
  | init_v5c (args : List Text) : Call
  | update_v5c (args : List Text) : Call
  | set_owner (args : List Text) : Call
  | Delete (args : List Text) : Call

/-- Run one call on a stub. -/
def Call.run (caseTable : Char → Char) (stub : Stub) : Call → Outcome
  | .init_v5c args => CarLease.init_v5c caseTable stub args
  | .update_v5c args => CarLease.update_v5c stub args
  | .set_owner args => CarLease.set_owner stub args
  | .Delete args => CarLease.Delete stub args

/-- The stub after a sequence of calls, each run on the stub the one before left. -/
def finalStub (caseTable : Char → Char) : Stub → List Call → Stub
  | stub, [] => stub
  | stub, c :: cs => finalStub caseTable (c.run caseTable stub).stub cs

/-- Whether every call of the sequence returns no error. -/
def allSucceed (caseTable : Char → Char) : Stub → List Call → Bool
  | _, [] => true
  | stub, c :: cs =>
    (c.run caseTable stub).err.isNone && allSucceed caseTable (c.run caseTable stub).stub cs

/-- Whether a call is not a creation under an id that the decoded index already holds. -/
def Call.freshId (stub : Stub) : Call → Bool
  | .init_v5c args => decide (args.headD [] ∉ decodedIndex stub)
  | _ => true

/-- Whether every `init_v5c` of the sequence is passed an id that the index, as decoded
at that point, does not hold. -/
def freshCreates (caseTable : Char → Char) : Stub → List Call → Bool
  | _, [] => true
  | stub, c :: cs => c.freshId stub && freshCreates caseTable (c.run caseTable stub).stub cs

/-- The index-to-record property of a ledger: every id of the decoded index has an entry. -/
def IndexedPresent (stub : Stub) : Prop :=
  ∀ id ∈ decodedIndex stub, stub.state id ≠ none

/-- The function names `Run` knows. -/
def knownFunctions : List Text :=
  ["init".toList, "delete".toList, "write".toList, "init_v5c".toList, "set_owner".toList,
    "update_v5c".toList]

/-- Whether one of the stub calls a handler issued failed: the handler used up the first
so-many pending outcomes of the stub it was given, and one of them is a failure. -/
def someCallFailed (stub : Stub) (out : Outcome) : Bool :=
  (stub.faults.take (stub.faults.length - out.stub.faults.length)).any (fun f => f)

/-- The ledger of the running example on a stub whose first two calls go through and
whose third call fails. -/
def faultyStub : Stub := ⟨demoStub.state, [false, false, true]⟩

/-- Bytes for which `json.Unmarshal` leaves a `V5C` as it was: a text that is not valid
JSON, or a JSON value that is not an object. -/
def notAnObject (data : Text) : Bool :=
  match parseJSON data with
  | some (.obj _) => false
  | _ => true

/-- The ledger of the running example after `Write(["V3", text])` where the text is the
object with `id` the string `x` and `vin` the number 5. -/
def typeErrorStub : Stub :=
  (Write demoStub ["V3".toList, "\x7b\"id\":\"x\",\"vin\":5\x7d".toList]).stub

/-- The decode step of the handlers on the bytes of the index: `json.Unmarshal` into a
fresh slice, the error it returns not being looked at. -/
def decodeIndex (data : Text) : List Text :=
  (jsonUnmarshalStrings data).1.elems

/-- What the quote-free creation result needs of the Unicode case table: the lower case
of a character above the ASCII range is no double quote, no backslash and no control
character. -/
def PlainTable (caseTable : Char → Char) : Prop :=
  ∀ c : Char, 0x7F < c.toNat →
    caseTable c ≠ '"' ∧ caseTable c ≠ '\\' ∧ 0x20 ≤ (caseTable c).toNat

/-! ## Lemmas: string literals -/

theorem hexVal_hexDigit : ∀ k, k < 16 → hexVal (hexDigit k) = some k := by decide

theorem getu4_byte (n : Nat) (h : n < 256) :
    getu4 '0' '0' (hexDigit (n / 16)) (hexDigit (n % 16)) = some n := by
  have h1 : n / 16 < 16 := by omega
  have h2 : n % 16 < 16 := by omega
  have z : hexVal '0' = some 0 := by decide
  simp only [getu4, z, hexVal_hexDigit _ h1, hexVal_hexDigit _ h2]
  congr 1
  omega

theorem getu4_linesep (n : Nat) (h : n = 0x2028 ∨ n = 0x2029) :
    getu4 '2' '0' '2' (hexDigit (n % 16)) = some n := by
  rcases h with h | h <;> subst h <;> decide

theorem unquoteFrom_quote (p : Option Nat) (tl : Text) :
    unquoteFrom p ('"' :: tl) = some (flushPending p, tl) := by
  unfold unquoteFrom
  simp

theorem unquoteFrom_raw (c : Char) (tl : Text) (h1 : c ≠ '"') (h2 : c ≠ '\\')
    (h3 : 0x20 ≤ c.toNat) :
    unquoteFrom none (c :: tl) = pushText [c] (unquoteFrom none tl) := by
  have h8 : ¬ c.toNat < 0x20 := by omega
  conv_lhs => unfold unquoteFrom
  simp [h1, h2, h8, flushPending]

theorem unquoteFrom_simple (e x : Char) (tl : Text) (h : simpleEscape e = some x)
    (hu : e ≠ 'u') :
    unquoteFrom none ('\\' :: e :: tl) = pushText [x] (unquoteFrom none tl) := by
  conv_lhs => unfold unquoteFrom
  simp [h, hu, flushPending]

theorem unquoteFrom_u4 (a b c d : Char) (n : Nat) (tl : Text) (h : getu4 a b c d = some n)
    (hn : n < 0xD800) :
    unquoteFrom none ('\\' :: 'u' :: a :: b :: c :: d :: tl)
      = pushText [Char.ofNat n] (unquoteFrom none tl) := by
  have hns : ¬ (0xD800 ≤ n ∧ n < 0xDC00) := by omega
  have hns2 : ¬ (0xDC00 ≤ n ∧ n < 0xE000) := by omega
  conv_lhs => unfold unquoteFrom
  simp [h, hns, hns2, flushPending]

/-- Reading back one marshalled character. -/
theorem unquoteFrom_escapeChar (c : Char) (tl : Text) :
    unquoteFrom none (escapeChar c ++ tl) = pushText [c] (unquoteFrom none tl) := by
  by_cases h1 : c = '"'
  · subst h1; exact unquoteFrom_simple _ _ _ (by decide) (by decide)
  by_cases h2 : c = '\\'
  · subst h2; exact unquoteFrom_simple _ _ _ (by decide) (by decide)
  by_cases h3 : c = '\n'
  · subst h3; exact unquoteFrom_simple _ _ _ (by decide) (by decide)
  by_cases h4 : c = '\r'
  · subst h4; exact unquoteFrom_simple _ _ _ (by decide) (by decide)
  by_cases h5 : c = '\t'
  · subst h5; exact unquoteFrom_simple _ _ _ (by decide) (by decide)
  by_cases h6 : c.toNat < 0x20 ∨ c = '<' ∨ c = '>' ∨ c = '&'
  · have hb : c.toNat < 256 := by
      rcases h6 with h | h | h | h
      · omega
      all_goals subst h; decide
    simp only [escapeChar, if_neg h1, if_neg h2, if_neg h3, if_neg h4, if_neg h5, if_pos h6]
    have := unquoteFrom_u4 _ _ _ _ _ tl (getu4_byte _ hb) (by omega)
    simpa using this
  by_cases h7 : c.toNat = 0x2028 ∨ c.toNat = 0x2029
  · simp only [escapeChar, if_neg h1, if_neg h2, if_neg h3, if_neg h4, if_neg h5, if_neg h6,
      if_pos h7]
    have := unquoteFrom_u4 _ _ _ _ _ tl (getu4_linesep _ h7) (by omega)
    simpa using this
  · simp only [escapeChar, if_neg h1, if_neg h2, if_neg h3, if_neg h4, if_neg h5, if_neg h6,
      if_neg h7]
    exact unquoteFrom_raw c tl h1 h2 (by omega)

/-- Reading back the body of a marshalled string up to its closing quote. -/
theorem unquoteFrom_escapeText (s tl : Text) :
    unquoteFrom none (escapeText s ++ '"' :: tl) = some (s, tl) := by
  induction s with
  | nil => simp [escapeText, unquoteFrom_quote, flushPending]
  | cons c cs ih =>
    simp only [escapeText, List.append_assoc]
    rw [unquoteFrom_escapeChar, ih]
    rfl

/-- Text without quote, backslash and control characters is read back as it stands. -/
theorem unquoteFrom_plain (s tl : Text) (h : PlainText s) :
    unquoteFrom none (s ++ '"' :: tl) = some (s, tl) := by
  induction s with
  | nil => simp [unquoteFrom_quote, flushPending]
  | cons c cs ih =>
    have hc := h c (List.mem_cons_self _ _)
    have hcs : PlainText cs := fun d hd => h d (List.mem_cons_of_mem _ hd)
    rw [List.cons_append, unquoteFrom_raw c _ hc.1 hc.2.1 hc.2.2, ih hcs]
    rfl

theorem skipSpace_cons (c : Char) (cs : Text) (h : isSpace c = false) :
    skipSpace (c :: cs) = c :: cs := by
  simp [skipSpace, h]

theorem skipSpace_space (cs : Text) : skipSpace (' ' :: cs) = skipSpace cs := by
  simp [skipSpace, isSpace]

theorem scanValue_str (n : Nat) (cs r : Text) (s : Text)
    (h : unquoteFrom none cs = some (s, r)) :
    scanValue (n + 1) ('"' :: cs) = some (.str s, r) := by
  unfold scanValue
  simp [h]

/-- One step of the member loop: a key, a colon, a string value and a comma. -/
theorem scanMembers_step (n : Nat) (cs r0 r1 r2 r3 r4 k s : Text)
    (hk : unquoteFrom none cs = some (k, r0)) (h0 : skipSpace r0 = ':' :: r1)
    (h1 : skipSpace r1 = '"' :: r2) (hs : unquoteFrom none r2 = some (s, r3))
    (h3 : skipSpace r3 = ',' :: r4) :
    scanMembers (n + 2) ('"' :: cs)
      = consItem (k, .str s) (scanMembers (n + 1) (skipSpace r4)) := by
  conv_lhs => unfold scanMembers
  simp [hk, h0, h1, scanValue_str n r2 r3 s hs, h3, JValue.shallow]

/-- Last step of the member loop: a key, a colon, a string value and the closing brace. -/
theorem scanMembers_last (n : Nat) (cs r0 r1 r2 r3 r4 k s : Text)
    (hk : unquoteFrom none cs = some (k, r0)) (h0 : skipSpace r0 = ':' :: r1)
    (h1 : skipSpace r1 = '"' :: r2) (hs : unquoteFrom none r2 = some (s, r3))
    (h3 : skipSpace r3 = '\x7d' :: r4) :
    scanMembers (n + 2) ('"' :: cs) = some ([(k, .str s)], r4) := by
  conv_lhs => unfold scanMembers
  simp [hk, h0, h1, scanValue_str n r2 r3 s hs, h3, JValue.shallow]

theorem scanMembers_memberText (n : Nat) (k s tl : Text) (hk : PlainText k) :
    scanMembers (n + 2) (memberText k s (',' :: '"' :: tl))
      = consItem (k, .str s) (scanMembers (n + 1) ('"' :: tl)) := by
  have := scanMembers_step n _ _ _ _ _ ('"' :: tl) k s (unquoteFrom_plain k _ hk)
    (skipSpace_cons _ _ (by decide)) (skipSpace_cons _ _ (by decide))
    (unquoteFrom_escapeText s _) (skipSpace_cons _ _ (by decide))
  rw [skipSpace_cons _ _ (by decide)] at this
  exact this

theorem scanMembers_memberText_last (n : Nat) (k s tl : Text) (hk : PlainText k) :
    scanMembers (n + 2) (memberText k s ('\x7d' :: tl)) = some ([(k, .str s)], tl) :=
  scanMembers_last n _ _ _ _ _ tl k s (unquoteFrom_plain k _ hk)
    (skipSpace_cons _ _ (by decide)) (skipSpace_cons _ _ (by decide))
    (unquoteFrom_escapeText s _) (skipSpace_cons _ _ (by decide))

theorem jsonMarshalV5C_eq (r : V5C) :
    jsonMarshalV5C r = '\x7b' :: memberText "id".toList r.Id (',' ::
      memberText "vin".toList r.Vin (',' :: memberText "make".toList r.Make (',' ::
      memberText "model".toList r.Model (',' :: memberText "rego".toList r.Rego (',' ::
      memberText "owner".toList r.Owner ['\x7d']))))) := by
  simp [jsonMarshalV5C, memberText, marshalString]

theorem plain_keys : PlainText "id".toList ∧ PlainText "vin".toList ∧ PlainText "make".toList
    ∧ PlainText "model".toList ∧ PlainText "rego".toList ∧ PlainText "owner".toList := by
  unfold PlainText
  decide

theorem scanValue_obj (n : Nat) (c : Char) (cs r : Text) (ms : List (Text × Shallow))
    (hc : isSpace c = false) (hc2 : c ≠ '\x7d')
    (h : scanMembers n (c :: cs) = some (ms, r)) :
    scanValue (n + 1) ('\x7b' :: c :: cs) = some (.obj ms, r) := by
  conv_lhs => unfold scanValue
  simp [skipSpace_cons c cs hc, hc2, h]

theorem scanMembers_memberText_next (n : Nat) (k s k1 s1 tl : Text) (hk : PlainText k) :
    scanMembers (n + 2) (memberText k s (',' :: memberText k1 s1 tl))
      = consItem (k, .str s) (scanMembers (n + 1) (memberText k1 s1 tl)) :=
  scanMembers_memberText n k s _ hk

theorem scanValue_jsonMarshalV5C (n : Nat) (r : V5C) :
    scanValue (n + 8) (jsonMarshalV5C r) = some (.obj (recordMembers r), []) := by
  obtain ⟨k1, k2, k3, k4, k5, k6⟩ := plain_keys
  rw [jsonMarshalV5C_eq]
  refine scanValue_obj (n + 7) '"' _ _ _ (by decide) (by decide) ?_
  show scanMembers (n + 5 + 2) (memberText "id".toList r.Id (',' :: memberText _ _ _)) = _
  rw [scanMembers_memberText_next (n + 5) _ _ _ _ _ k1,
    scanMembers_memberText_next (n + 4) _ _ _ _ _ k2,
    scanMembers_memberText_next (n + 3) _ _ _ _ _ k3,
    scanMembers_memberText_next (n + 2) _ _ _ _ _ k4,
    scanMembers_memberText_next (n + 1) _ _ _ _ _ k5,
    scanMembers_memberText_last n _ _ _ k6]
  rfl

theorem length_jsonMarshalV5C (r : V5C) : ∃ n, (jsonMarshalV5C r).length + 1 = n + 8 := by
  refine ⟨(jsonMarshalV5C r).length - 7, ?_⟩
  have : 7 ≤ (jsonMarshalV5C r).length := by
    rw [jsonMarshalV5C_eq]
    simp [memberText]
  omega

theorem parseJSON_jsonMarshalV5C (r : V5C) :
    parseJSON (jsonMarshalV5C r) = some (.obj (recordMembers r)) := by
  obtain ⟨n, hn⟩ := length_jsonMarshalV5C r
  have h0 : skipSpace (jsonMarshalV5C r) = jsonMarshalV5C r := by
    rw [jsonMarshalV5C_eq]
    exact skipSpace_cons _ _ (by decide)
  simp only [parseJSON, hn, h0, scanValue_jsonMarshalV5C]
  rfl

theorem foldl_recordMembers (r res : V5C) (e : Bool) :
    (recordMembers r).foldl decodeMember (res, e) = (r, e) := by
  rfl

/-- Unmarshalling a marshalled record gives the record back, without error, whatever the
target held. -/
theorem jsonUnmarshalV5C_jsonMarshalV5C (r res : V5C) :
    jsonUnmarshalV5C (jsonMarshalV5C r) res = (r, false) := by
  simp [jsonUnmarshalV5C, parseJSON_jsonMarshalV5C, foldl_recordMembers]

/-! ## Lemmas: the index codec -/

theorem marshalElems_cons_cons (x y : Text) (rest : List Text) :
    marshalElems (x :: y :: rest)
      = '"' :: (escapeText x ++ '"' :: ',' :: marshalElems (y :: rest)) := by
  simp [marshalElems, marshalString]

theorem marshalElems_head (x : Text) (xs : List Text) :
    ∃ body, marshalElems (x :: xs) = '"' :: body := by
  cases xs with
  | nil => exact ⟨_, rfl⟩
  | cons y ys => exact ⟨_, marshalElems_cons_cons x y ys⟩

theorem scanElems_marshalElems (xs : List Text) :
    ∀ (x : Text) (n : Nat) (tl : Text),
      scanElems (n + xs.length + 2) (marshalElems (x :: xs) ++ ']' :: tl)
        = some ((x :: xs).map Shallow.str, tl) := by
  induction xs with
  | nil =>
    intro x n tl
    have hv : scanValue (n + 1) ('"' :: (escapeText x ++ '"' :: ']' :: tl))
        = some (.str x, ']' :: tl) := scanValue_str n _ _ x (unquoteFrom_escapeText x _)
    show scanElems (n + 1 + 1) _ = _
    conv_lhs => unfold scanElems
    simp [marshalElems, marshalString, hv, skipSpace_cons ']' tl (by decide), JValue.shallow]
  | cons y ys ih =>
    intro x n tl
    obtain ⟨body, hb⟩ := marshalElems_head y ys
    have hv : scanValue (n + ys.length + 2)
        ('"' :: (escapeText x ++ '"' :: ',' :: (marshalElems (y :: ys) ++ ']' :: tl)))
        = some (.str x, ',' :: (marshalElems (y :: ys) ++ ']' :: tl)) :=
      scanValue_str _ _ _ x (unquoteFrom_escapeText x _)
    have hsk : skipSpace (marshalElems (y :: ys) ++ ']' :: tl)
        = marshalElems (y :: ys) ++ ']' :: tl := by
      rw [hb]
      exact skipSpace_cons _ _ (by decide)
    show scanElems (n + ys.length + 2 + 1) _ = _
    conv_lhs => unfold scanElems
    simp only [marshalElems_cons_cons, List.cons_append, List.append_assoc, hv,
      skipSpace_cons ',' _ (by decide : isSpace ',' = false)]
    simp [hsk, ih y n tl, consItem, JValue.shallow]

theorem length_marshalElems (xs : List Text) : xs.length ≤ (marshalElems xs).length := by
  induction xs with
  | nil => simp
  | cons x xs ih =>
    cases xs with
    | nil => simp [marshalElems, marshalString]
    | cons y ys =>
      rw [marshalElems_cons_cons]
      simp only [List.length_cons, List.length_append] at ih ⊢
      omega

theorem parseJSON_marshalElems (x : Text) (xs : List Text) :
    parseJSON ('[' :: (marshalElems (x :: xs) ++ [']']))
      = some (.arr ((x :: xs).map Shallow.str)) := by
  obtain ⟨body, hb⟩ := marshalElems_head x xs
  have hl := length_marshalElems (x :: xs)
  obtain ⟨n, hn⟩ : ∃ n, ('[' :: (marshalElems (x :: xs) ++ [']'])).length + 1
      = n + xs.length + 2 + 1 := by
    refine ⟨(marshalElems (x :: xs)).length - xs.length, ?_⟩
    simp only [List.length_cons, List.length_append, List.length_nil] at hl ⊢
    omega
  have hs := scanElems_marshalElems xs x n []
  rw [hb, List.cons_append] at hs
  simp only [parseJSON, hn, skipSpace_cons '[' _ (by decide : isSpace '[' = false)]
  conv_lhs => unfold scanValue
  rw [hb]
  have hnil : skipSpace [] = [] := rfl
  simp [skipSpace_cons '"' _ (by decide : isSpace '"' = false), hs, hnil]

theorem map_elemText_str (xs : List Text) : (xs.map Shallow.str).map elemText = xs := by
  induction xs with
  | nil => rfl
  | cons x xs ih => simp [elemText, ih]

theorem any_elemBad_str (xs : List Text) : (xs.map Shallow.str).any elemBad = false := by
  induction xs with
  | nil => rfl
  | cons x xs ih => simp [elemBad]

/-- Unmarshalling a marshalled slice gives the slice back, without error. -/
theorem jsonUnmarshalStrings_jsonMarshalStrings (v : StringSlice) :
    jsonUnmarshalStrings (jsonMarshalStrings v) = (v, false) := by
  cases v with
  | none => decide
  | some xs =>
    cases xs with
    | nil => decide
    | cons x xs =>
      simp only [jsonMarshalStrings, jsonUnmarshalStrings, parseJSON_marshalElems,
        map_elemText_str, any_elemBad_str]

/-- A text that starts with an opening brace never unmarshals into a string slice. -/
theorem jsonUnmarshalStrings_brace (cs : Text) :
    jsonUnmarshalStrings ('\x7b' :: cs) = (none, true) := by
  have key : ∀ n v r, scanValue n ('\x7b' :: cs) = some (v, r) → ∃ ms, v = .obj ms := by
    intro n v r h
    cases n with
    | zero => simp [scanValue] at h
    | succ n =>
      unfold scanValue at h
      simp only [Char.reduceEq, if_false, if_true] at h
      split at h
      · simp at h
      · split at h
        · simp only [Option.some.injEq, Prod.mk.injEq] at h
          exact ⟨_, h.1.symm⟩
        · split at h
          · simp at h
          · simp only [Option.some.injEq, Prod.mk.injEq] at h
            exact ⟨_, h.1.symm⟩
  simp only [jsonUnmarshalStrings, parseJSON,
    skipSpace_cons '\x7b' cs (by decide : isSpace '\x7b' = false)]
  cases h : scanValue (('\x7b' :: cs).length + 1) ('\x7b' :: cs) with
  | none => rfl
  | some p =>
    obtain ⟨v, r⟩ := p
    obtain ⟨ms, hms⟩ := key _ v r h
    subst hms
    by_cases hr : skipSpace r = [] <;> simp [hr]

theorem jsonUnmarshalStrings_nil : jsonUnmarshalStrings [] = (none, true) := by decide

/-! ## Lemmas: the record text built by `init_v5c` -/

theorem v5cString_eq (id vin mk model rego owner : Text) :
    v5cString id vin mk model rego owner
      = '\x7b' :: spacedMember "id".toList id (',' :: ' ' ::
        spacedMember "vin".toList vin (',' :: ' ' ::
        spacedMember "make".toList mk (',' :: ' ' ::
        spacedMember "model".toList model (',' :: ' ' ::
        spacedMember "rego".toList rego (',' :: ' ' ::
        spacedMember "owner".toList owner ['\x7d']))))) := by
  simp [v5cString, spacedMember]

theorem scanMembers_spacedMember_next (n : Nat) (k s k1 s1 tl : Text) (hk : PlainText k)
    (hs : PlainText s) :
    scanMembers (n + 2) (spacedMember k s (',' :: ' ' :: spacedMember k1 s1 tl))
      = consItem (k, .str s) (scanMembers (n + 1) (spacedMember k1 s1 tl)) := by
  have := scanMembers_step n _ _ _ _ _ (' ' :: spacedMember k1 s1 tl) k s
    (unquoteFrom_plain k _ hk) (skipSpace_cons _ _ (by decide))
    ((skipSpace_space _).trans (skipSpace_cons _ _ (by decide)))
    (unquoteFrom_plain s _ hs) (skipSpace_cons _ _ (by decide))
  rw [skipSpace_space, show spacedMember k1 s1 tl = '"' :: _ from rfl,
    skipSpace_cons _ _ (by decide)] at this
  exact this

theorem scanMembers_spacedMember_last (n : Nat) (k s tl : Text) (hk : PlainText k)
    (hs : PlainText s) :
    scanMembers (n + 2) (spacedMember k s ('\x7d' :: tl)) = some ([(k, .str s)], tl) :=
  scanMembers_last n _ _ _ _ _ tl k s (unquoteFrom_plain k _ hk)
    (skipSpace_cons _ _ (by decide))
    ((skipSpace_space _).trans (skipSpace_cons _ _ (by decide)))
    (unquoteFrom_plain s _ hs) (skipSpace_cons _ _ (by decide))

theorem scanValue_v5cString (n : Nat) (r : V5C) (h1 : PlainText r.Id) (h2 : PlainText r.Vin)
    (h3 : PlainText r.Make) (h4 : PlainText r.Model) (h5 : PlainText r.Rego)
    (h6 : PlainText r.Owner) :
    scanValue (n + 8) (v5cString r.Id r.Vin r.Make r.Model r.Rego r.Owner)
      = some (.obj (recordMembers r), []) := by
  obtain ⟨k1, k2, k3, k4, k5, k6⟩ := plain_keys
  rw [v5cString_eq]
  refine scanValue_obj (n + 7) '"' _ _ _ (by decide) (by decide) ?_
  show scanMembers (n + 5 + 2)
    (spacedMember "id".toList r.Id (',' :: ' ' :: spacedMember _ _ _)) = _
  rw [scanMembers_spacedMember_next (n + 5) _ _ _ _ _ k1 h1,
    scanMembers_spacedMember_next (n + 4) _ _ _ _ _ k2 h2,
    scanMembers_spacedMember_next (n + 3) _ _ _ _ _ k3 h3,
    scanMembers_spacedMember_next (n + 2) _ _ _ _ _ k4 h4,
    scanMembers_spacedMember_next (n + 1) _ _ _ _ _ k5 h5,
    scanMembers_spacedMember_last n _ _ _ k6 h6]
  rfl

/-- The text `init_v5c` builds from quote-free fields is a record object: it unmarshals,
without error, to the record with exactly these fields. -/
theorem jsonUnmarshalV5C_v5cString (r res : V5C) (h1 : PlainText r.Id)
    (h2 : PlainText r.Vin) (h3 : PlainText r.Make) (h4 : PlainText r.Model)
    (h5 : PlainText r.Rego) (h6 : PlainText r.Owner) :
    jsonUnmarshalV5C (v5cString r.Id r.Vin r.Make r.Model r.Rego r.Owner) res
      = (r, false) := by
  obtain ⟨n, hn⟩ : ∃ n, (v5cString r.Id r.Vin r.Make r.Model r.Rego r.Owner).length + 1
      = n + 8 := by
    refine ⟨(v5cString r.Id r.Vin r.Make r.Model r.Rego r.Owner).length - 7, ?_⟩
    have : 7 ≤ (v5cString r.Id r.Vin r.Make r.Model r.Rego r.Owner).length := by
      rw [v5cString_eq]
      simp [spacedMember]
    omega
  have h0 : skipSpace (v5cString r.Id r.Vin r.Make r.Model r.Rego r.Owner)
      = v5cString r.Id r.Vin r.Make r.Model r.Rego r.Owner := by
    rw [v5cString_eq]
    exact skipSpace_cons _ _ (by decide)
  have hp : parseJSON (v5cString r.Id r.Vin r.Make r.Model r.Rego r.Owner)
      = some (.obj (recordMembers r)) := by
    simp only [parseJSON, hn, h0, scanValue_v5cString n r h1 h2 h3 h4 h5 h6]
    rfl
  simp [jsonUnmarshalV5C, hp, foldl_recordMembers]

/-! ## Lemmas: handlers on a stub whose calls go through -/

theorem decodedIndex_mk (st : Text → Option Text) (fs : List Bool) :
    decodedIndex ⟨st, fs⟩ = (jsonUnmarshalStrings ((st v5cIndexStr).getD [])).1.elems := rfl

/-- Once a marshalled slice is stored at the index key, the index decodes to it. -/
theorem decodedIndex_stored (st : Text → Option Text) (fs : List Bool) (v : StringSlice)
    (h : st v5cIndexStr = some (jsonMarshalStrings v)) :
    decodedIndex ⟨st, fs⟩ = v.elems := by
  simp [decodedIndex_mk, h, jsonUnmarshalStrings_jsonMarshalStrings]

theorem init_v5c_ok (caseTable : Char → Char) (st : Text → Option Text)
    (id vin mk model rego owner : Text) (hid : id ≠ []) (hown : owner ≠ []) :
    init_v5c caseTable ⟨st, []⟩ [id, vin, mk, model, rego, owner]
      = ⟨[], none,
          ⟨fun k => if k = v5cIndexStr then
              some (jsonMarshalStrings (appendId (jsonUnmarshalStrings
                ((if v5cIndexStr = id then
                    some (v5cString id (ToLower caseTable vin) (ToLower caseTable mk)
                      (ToLower caseTable model) (ToLower caseTable rego)
                      (ToLower caseTable owner))
                  else st v5cIndexStr).getD [])).1 id))
            else if k = id then
              some (v5cString id (ToLower caseTable vin) (ToLower caseTable mk)
                (ToLower caseTable model) (ToLower caseTable rego) (ToLower caseTable owner))
            else st k, []⟩⟩ := by
  have h1 : ¬ id.length ≤ 0 := by
    cases id with
    | nil => exact absurd rfl hid
    | cons c cs => simp
  have h2 : ¬ owner.length ≤ 0 := by
    cases owner with
    | nil => exact absurd rfl hown
    | cons c cs => simp
  simp only [init_v5c, if_neg h1, if_neg h2, PutState, GetState, Stub.nextFails,
    Stub.advance, List.headD_nil, List.tail_nil, Bool.false_eq_true, if_false]

theorem Delete_ok (st : Text → Option Text) (id : Text) :
    Delete ⟨st, []⟩ [id]
      = ⟨[], none,
          ⟨fun k => if k = v5cIndexStr then
              some (jsonMarshalStrings ((jsonUnmarshalStrings
                ((if v5cIndexStr = id then none else st v5cIndexStr).getD [])).1.map
                  (removeFirst id)))
            else if k = id then none else st k, []⟩⟩ := by
  simp only [Delete, DelState, PutState, GetState, Stub.nextFails,
    Stub.advance, List.headD_nil, List.tail_nil, Bool.false_eq_true, if_false]

theorem set_owner_ok (st : Text → Option Text) (id owner : Text) (more : List Text) :
    set_owner ⟨st, []⟩ (id :: owner :: more)
      = ⟨[], none,
          ⟨fun k => if k = id then
              some (jsonMarshalV5C { decodeRecord ((st id).getD []) with Owner := owner })
            else st k, []⟩⟩ := by
  simp only [set_owner, decodeRecord, PutState, GetState, Stub.nextFails,
    Stub.advance, List.headD_nil, List.tail_nil, Bool.false_eq_true, if_false]

theorem update_v5c_ok (st : Text → Option Text) (id vin mk model rego : Text)
    (more : List Text) :
    update_v5c ⟨st, []⟩ (id :: vin :: mk :: model :: rego :: more)
      = ⟨[], none,
          ⟨fun k => if k = id then
              some (jsonMarshalV5C { decodeRecord ((st id).getD []) with
                Vin := vin, Make := mk, Model := model, Rego := rego })
            else st k, []⟩⟩ := by
  simp only [update_v5c, decodeRecord, PutState, GetState, Stub.nextFails,
    Stub.advance, List.headD_nil, List.tail_nil, Bool.false_eq_true, if_false]

theorem Query_ok (st : Text → Option Text) (id : Text) :
    Query ⟨st, []⟩ "query".toList [id] = ⟨(st id).getD [], none, ⟨st, []⟩⟩ := by
  simp [Query, GetState, Stub.nextFails, Stub.advance]

theorem init_ok (st : Text → Option Text) (a : Text) (n : Int) (h : Atoi a = some n) :
    init ⟨st, []⟩ [a]
      = ⟨[], none,
          ⟨fun k => if k = v5cIndexStr then some (jsonMarshalStrings none)
            else if k = "abc".toList then some (Itoa n) else st k, []⟩⟩ := by
  simp only [init, h, PutState, Stub.nextFails, Stub.advance, List.headD_nil,
    List.tail_nil, Bool.false_eq_true, if_false]

/-! ## Lemmas: `Delete`, `update_v5c` and `set_owner` in general -/

theorem removeFirst_eq_erase (id : Text) (xs : List Text) :
    removeFirst id xs = xs.erase id := by
  induction xs with
  | nil => rfl
  | cons x xs ih =>
    by_cases h : x = id
    · simp [removeFirst, h]
    · simp [removeFirst, h, List.erase_cons, ih]

theorem removeFirst_of_not_mem (id : Text) (xs : List Text) (h : id ∉ xs) :
    removeFirst id xs = xs := by
  rw [removeFirst_eq_erase]
  exact List.erase_of_not_mem h

theorem removeFirst_append (id : Text) (pre post : List Text) (h : id ∉ pre) :
    removeFirst id (pre ++ id :: post) = pre ++ post := by
  induction pre with
  | nil => simp [removeFirst]
  | cons x xs ih =>
    have hx : x ≠ id := fun e => h (e ▸ List.mem_cons_self _ _)
    have hxs : id ∉ xs := fun m => h (List.mem_cons_of_mem _ m)
    simp [removeFirst, hx, ih hxs]

theorem elems_map (f : List Text → List Text) (v : StringSlice)
    (hf : f [] = []) : StringSlice.elems (v.map f) = f v.elems := by
  cases v with
  | none => simp [StringSlice.elems, hf]
  | some xs => rfl

/-- The decoded index after a `Delete` whose stub calls go through, for an id other than
the index key: the decoded index before, without its first entry equal to the id. -/
theorem decodedIndex_Delete (st : Text → Option Text) (id : Text) (hkey : id ≠ v5cIndexStr) :
    decodedIndex (Delete ⟨st, []⟩ [id]).stub = removeFirst id (decodedIndex ⟨st, []⟩) := by
  have hkey2 : ¬ v5cIndexStr = id := fun h => hkey h.symm
  rw [Delete_ok, decodedIndex_stored _ _ _ (if_pos rfl), decodedIndex_mk]
  simp only [if_neg hkey2]
  exact elems_map (removeFirst id) _ rfl

theorem decodedIndex_state (s t : Stub) (h : s.state = t.state) :
    decodedIndex s = decodedIndex t := by
  simp [decodedIndex, h]

theorem decodedIndex_of_state (s : Stub) (v : StringSlice)
    (h : s.state v5cIndexStr = some (jsonMarshalStrings v)) : decodedIndex s = v.elems := by
  simp [decodedIndex, h, jsonUnmarshalStrings_jsonMarshalStrings]

/-- The ledger after `Delete([id])`, whatever stub calls fail: untouched, or without the
key `id`, or without the key `id` and with the index rewritten. -/
theorem Delete_state (stub : Stub) (id : Text) :
    (Delete stub [id]).stub.state = stub.state ∨
    (Delete stub [id]).stub.state = (fun k => if k = id then none else stub.state k) ∨
    (Delete stub [id]).stub.state
      = (fun k => if k = v5cIndexStr then
          some (jsonMarshalStrings ((jsonUnmarshalStrings
            ((if v5cIndexStr = id then none else stub.state v5cIndexStr).getD [])).1.map
              (removeFirst id)))
        else if k = id then none else stub.state k) := by
  obtain ⟨st, fs⟩ := stub
  rcases fs with _ | ⟨f1, _ | ⟨f2, _ | ⟨f3, fs⟩⟩⟩ <;> (try cases f1) <;> (try cases f2) <;>
    (try cases f3) <;>
    simp [Delete, DelState, GetState, PutState, Stub.nextFails, Stub.advance, failWith]

/-- A successful `update_v5c` has written the marshalled record at its first argument,
whatever the outcomes of later stub calls. -/
theorem update_v5c_success (stub : Stub) (id vin mk model rego : Text) (more : List Text)
    (h : (update_v5c stub (id :: vin :: mk :: model :: rego :: more)).err = none) :
    (update_v5c stub (id :: vin :: mk :: model :: rego :: more)).stub.state id
      = some (jsonMarshalV5C { decodeRecord ((stub.state id).getD []) with
          Vin := vin, Make := mk, Model := model, Rego := rego }) := by
  obtain ⟨st, fs⟩ := stub
  revert h
  rcases fs with _ | ⟨f1, _ | ⟨f2, fs⟩⟩ <;> (try cases f1) <;> (try cases f2) <;>
    simp [update_v5c, decodeRecord, GetState, PutState, Stub.nextFails, Stub.advance, failWith]

/-- A successful `set_owner` has written the marshalled record at its first argument. -/
theorem set_owner_success (stub : Stub) (id owner : Text) (more : List Text)
    (h : (set_owner stub (id :: owner :: more)).err = none) :
    (set_owner stub (id :: owner :: more)).stub.state id
      = some (jsonMarshalV5C { decodeRecord ((stub.state id).getD []) with Owner := owner }) := by
  obtain ⟨st, fs⟩ := stub
  revert h
  rcases fs with _ | ⟨f1, _ | ⟨f2, fs⟩⟩ <;> (try cases f1) <;> (try cases f2) <;>
    simp [set_owner, decodeRecord, GetState, PutState, Stub.nextFails, Stub.advance, failWith]

/-! ## Lemmas: the index-to-record invariant -/

theorem init_v5c_args (caseTable : Char → Char) (stub : Stub) (args : List Text)
    (h : (init_v5c caseTable stub args).err = none) :
    ∃ id vin mk model rego owner, args = [id, vin, mk, model, rego, owner] ∧ id ≠ [] ∧
      owner ≠ [] := by
  rcases args with _ | ⟨a0, _ | ⟨a1, _ | ⟨a2, _ | ⟨a3, _ | ⟨a4, _ | ⟨a5, _ | ⟨a6, rest⟩⟩⟩⟩⟩⟩⟩
  case cons.cons.cons.cons.cons.cons.nil =>
    refine ⟨a0, a1, a2, a3, a4, a5, rfl, ?_, ?_⟩
    · intro e
      subst e
      simp [init_v5c, failWith] at h
    · intro e
      subst e
      by_cases h0 : a0.length ≤ 0 <;> simp [init_v5c, failWith, h0] at h
  all_goals simp [init_v5c, failWith] at h

theorem init_success (stub : Stub) (args : List Text) (hok : stub.faults = [])
    (h : (init stub args).err = none) :
    (init stub args).stub.faults = [] ∧ decodedIndex (init stub args).stub = [] := by
  obtain ⟨st, fs⟩ := stub
  simp only at hok
  subst hok
  rcases args with _ | ⟨a, _ | ⟨b, rest⟩⟩
  · simp [init, failWith] at h
  · cases hA : Atoi a with
    | none => simp [init, failWith, hA] at h
    | some n =>
      rw [init_ok st a n hA]
      exact ⟨rfl, decodedIndex_stored _ _ none (if_pos rfl)⟩
  · simp [init, failWith] at h

theorem Delete_args (stub : Stub) (args : List Text) (h : (Delete stub args).err = none) :
    ∃ id, args = [id] := by
  rcases args with _ | ⟨a, _ | ⟨b, rest⟩⟩
  · simp [Delete, failWith] at h
  · exact ⟨a, rfl⟩
  · simp [Delete, failWith] at h

theorem set_owner_args (stub : Stub) (args : List Text) (h : (set_owner stub args).err = none) :
    ∃ id o more, args = id :: o :: more := by
  rcases args with _ | ⟨a, _ | ⟨b, rest⟩⟩
  · simp [set_owner, failWith] at h
  · simp [set_owner, failWith] at h
  · exact ⟨a, b, rest, rfl⟩

theorem update_v5c_args (stub : Stub) (args : List Text)
    (h : (update_v5c stub args).err = none) :
    ∃ id vin mk model rego more, args = id :: vin :: mk :: model :: rego :: more := by
  rcases args with _ | ⟨a0, _ | ⟨a1, _ | ⟨a2, _ | ⟨a3, _ | ⟨a4, rest⟩⟩⟩⟩⟩
  case cons.cons.cons.cons.cons => exact ⟨a0, a1, a2, a3, a4, rest, rfl⟩
  all_goals simp [update_v5c, failWith] at h

/-- Writing a text that starts with an opening brace at a key keeps the invariant: when
the key is the index key the index decodes to nothing afterwards, otherwise the index is
untouched and no entry goes away. -/
theorem inv_put_brace (st : Text → Option Text) (id body : Text)
    (hn : (decodedIndex ⟨st, []⟩).Nodup) (hp : IndexedPresent ⟨st, []⟩) :
    (decodedIndex ⟨fun k => if k = id then some ('\x7b' :: body) else st k, []⟩).Nodup ∧
    IndexedPresent ⟨fun k => if k = id then some ('\x7b' :: body) else st k, []⟩ := by
  by_cases hk : v5cIndexStr = id
  · have hd : decodedIndex ⟨fun k => if k = id then some ('\x7b' :: body) else st k, []⟩
        = [] := by
      simp [decodedIndex_mk, hk, jsonUnmarshalStrings_brace, StringSlice.elems]
    rw [IndexedPresent, hd]
    exact ⟨List.nodup_nil, fun x hx => absurd hx (List.not_mem_nil x)⟩
  · have hd : decodedIndex ⟨fun k => if k = id then some ('\x7b' :: body) else st k, []⟩
        = decodedIndex ⟨st, []⟩ := by
      simp [decodedIndex_mk, hk]
    rw [IndexedPresent, hd]
    refine ⟨hn, fun x hx => ?_⟩
    by_cases hx2 : x = id
    · simp [hx2]
    · simpa [hx2] using hp x hx

theorem jsonMarshalV5C_brace (r : V5C) : ∃ body, jsonMarshalV5C r = '\x7b' :: body :=
  ⟨_, jsonMarshalV5C_eq r⟩

theorem v5cString_brace (id vin mk model rego owner : Text) :
    ∃ body, v5cString id vin mk model rego owner = '\x7b' :: body :=
  ⟨_, v5cString_eq id vin mk model rego owner⟩

/-- One successful call keeps the invariant, provided a creation is not passed an id that
the index already holds. -/
theorem inv_step (caseTable : Char → Char) (stub : Stub) (c : Call)
    (hok : stub.faults = []) (hn : (decodedIndex stub).Nodup) (hp : IndexedPresent stub)
    (hs : (c.run caseTable stub).err = none) (hf : c.freshId stub = true) :
    (c.run caseTable stub).stub.faults = [] ∧
    (decodedIndex (c.run caseTable stub).stub).Nodup ∧
    IndexedPresent (c.run caseTable stub).stub := by
  obtain ⟨st, fs⟩ := stub
  simp only at hok
  subst hok
  cases c with
  | init_v5c args =>
    obtain ⟨id, vin, mk, model, rego, owner, rfl, hid, hown⟩ :=
      init_v5c_args caseTable _ args hs
    have hfresh : id ∉ decodedIndex ⟨st, []⟩ := by simpa [Call.freshId] using hf
    obtain ⟨body, hbody⟩ := v5cString_brace id (ToLower caseTable vin) (ToLower caseTable mk)
      (ToLower caseTable model) (ToLower caseTable rego) (ToLower caseTable owner)
    simp only [Call.run]
    rw [init_v5c_ok caseTable st id vin mk model rego owner hid hown]
    refine ⟨rfl, ?_⟩
    rw [IndexedPresent, decodedIndex_stored _ _ _ (if_pos rfl)]
    by_cases hk : v5cIndexStr = id
    · simp only [if_pos hk, Option.getD_some, hbody, jsonUnmarshalStrings_brace, appendId,
        StringSlice.elems, List.nil_append]
      refine ⟨List.nodup_singleton _, fun x hx => ?_⟩
      have hx2 : x = id := by simpa using hx
      simp [hx2, hk.symm]
    · simp only [if_neg hk, appendId, StringSlice.elems]
      rw [show (match (jsonUnmarshalStrings ((st v5cIndexStr).getD [])).1 with
          | none => []
          | some xs => xs) = decodedIndex ⟨st, []⟩ from rfl]
      have hstate : ∀ (x : Text) (A B : Text), (x = id ∨ st x ≠ none) →
          (if x = v5cIndexStr then some A else if x = id then some B else st x) ≠ none := by
        intro x A B hx
        by_cases h1 : x = v5cIndexStr
        · simp [h1]
        · by_cases h2 : x = id
          · rw [if_neg h1, if_pos h2]
            exact Option.some_ne_none _
          · simpa [h1, h2] using hx.resolve_left h2
      refine ⟨?_, fun x hx => ?_⟩
      · exact List.Nodup.append hn (List.nodup_singleton _)
          (fun a ha hb => hfresh ((List.mem_singleton.mp hb) ▸ ha))
      · refine hstate x _ _ ?_
        rcases List.mem_append.mp hx with hx1 | hx1
        · exact Or.inr (hp x hx1)
        · exact Or.inl (List.mem_singleton.mp hx1)
  | update_v5c args =>
    obtain ⟨id, vin, mk, model, rego, more, rfl⟩ := update_v5c_args _ args hs
    simp only [Call.run]
    rw [update_v5c_ok]
    obtain ⟨body, hbody⟩ := jsonMarshalV5C_brace { decodeRecord ((st id).getD []) with
      Vin := vin, Make := mk, Model := model, Rego := rego }
    rw [hbody]
    exact ⟨rfl, inv_put_brace st id body hn hp⟩
  | set_owner args =>
    obtain ⟨id, o, more, rfl⟩ := set_owner_args _ args hs
    simp only [Call.run]
    rw [set_owner_ok]
    obtain ⟨body, hbody⟩ := jsonMarshalV5C_brace { decodeRecord ((st id).getD []) with
      Owner := o }
    rw [hbody]
    exact ⟨rfl, inv_put_brace st id body hn hp⟩
  | Delete args =>
    obtain ⟨id, rfl⟩ := Delete_args _ args hs
    simp only [Call.run]
    by_cases hk : id = v5cIndexStr
    · rw [Delete_ok]
      refine ⟨rfl, ?_⟩
      rw [IndexedPresent, decodedIndex_stored _ _ _ (if_pos rfl)]
      simp [hk, jsonUnmarshalStrings_nil, StringSlice.elems]
    · refine ⟨by rw [Delete_ok], ?_⟩
      rw [IndexedPresent, decodedIndex_Delete st id hk, removeFirst_eq_erase]
      refine ⟨hn.erase id, fun x hx => ?_⟩
      have hx1 : x ≠ id ∧ x ∈ decodedIndex ⟨st, []⟩ := (hn.mem_erase_iff).mp hx
      have := hp x hx1.2
      rw [Delete_ok]
      by_cases h1 : x = v5cIndexStr
      · simp [h1]
      · simpa [h1, hx1.1] using this

/-- A sequence of successful calls in which no creation repeats an id of the index keeps
the invariant. -/
theorem inv_calls (caseTable : Char → Char) (calls : List Call) :
    ∀ stub : Stub, stub.faults = [] → (decodedIndex stub).Nodup → IndexedPresent stub →
      allSucceed caseTable stub calls = true → freshCreates caseTable stub calls = true →
      IndexedPresent (finalStub caseTable stub calls) := by
  induction calls with
  | nil =>
    intro stub _ _ hp _ _
    exact hp
  | cons c cs ih =>
    intro stub hok hn hp hs hf
    simp only [allSucceed, Bool.and_eq_true, Option.isNone_iff_eq_none] at hs
    simp only [freshCreates, Bool.and_eq_true] at hf
    obtain ⟨h1, h2, h3⟩ := inv_step caseTable stub c hok hn hp hs.1 hf.1
    exact ih _ h1 h2 h3 hs.2 hf.2

/-! ## Lemmas: the parser never runs short of fuel -/

theorem pushText_some (pre : Text) (x : Option (Text × Text)) (s r : Text)
    (h : pushText pre x = some (s, r)) : ∃ s1, x = some (s1, r) := by
  cases x with
  | none => simp [pushText] at h
  | some p =>
    obtain ⟨a, b⟩ := p
    simp only [pushText, Option.some.injEq, Prod.mk.injEq] at h
    exact ⟨a, by rw [h.2]⟩

theorem unquoteFrom_length (k : Nat) :
    ∀ (cs : Text) (p : Option Nat) (s r : Text), cs.length ≤ k →
      unquoteFrom p cs = some (s, r) → r.length < cs.length := by
  induction k with
  | zero =>
    intro cs p s r hk h
    cases cs with
    | nil => simp [unquoteFrom] at h
    | cons c cs => simp at hk
  | succ k ih =>
    intro cs p s r hk h
    cases cs with
    | nil => simp [unquoteFrom] at h
    | cons c cs =>
      simp only [List.length_cons, Nat.add_le_add_iff_right] at hk
      unfold unquoteFrom at h
      split at h
      · simp only [Option.some.injEq, Prod.mk.injEq] at h
        rw [← h.2]
        simp
      · split at h
        · split at h
          · simp at h
          · rename_i e rest
            simp only [List.length_cons, Nat.add_le_add_iff_right] at hk
            split at h
            · split at h
              · rename_i a b c3 d rest4
                have hlen : rest4.length ≤ k := by
                  simp only [List.length_cons] at hk
                  omega
                split at h
                · simp at h
                · split at h
                  · obtain ⟨s1, h1⟩ := pushText_some _ _ _ _ h
                    have := ih rest4 _ _ _ hlen h1
                    simp only [List.length_cons]
                    omega
                  · split at h
                    · split at h
                      · obtain ⟨s1, h1⟩ := pushText_some _ _ _ _ h
                        have := ih rest4 _ _ _ hlen h1
                        simp only [List.length_cons]
                        omega
                      · obtain ⟨s1, h1⟩ := pushText_some _ _ _ _ h
                        have := ih rest4 _ _ _ hlen h1
                        simp only [List.length_cons]
                        omega
                    · obtain ⟨s1, h1⟩ := pushText_some _ _ _ _ h
                      have := ih rest4 _ _ _ hlen h1
                      simp only [List.length_cons]
                      omega
              · simp at h
            · split at h
              · simp at h
              · obtain ⟨s1, h1⟩ := pushText_some _ _ _ _ h
                have := ih rest _ _ _ (by omega) h1
                simp only [List.length_cons]
                omega
        · split at h
          · simp at h
          · obtain ⟨s1, h1⟩ := pushText_some _ _ _ _ h
            have := ih cs _ _ _ hk h1
            simp only [List.length_cons]
            omega

theorem skipSpace_length (cs : Text) : (skipSpace cs).length ≤ cs.length := by
  induction cs with
  | nil => simp [skipSpace]
  | cons c cs ih =>
    simp only [skipSpace]
    split
    · simp only [List.length_cons]
      omega
    · exact Nat.le_refl _

theorem skipDigits_length (cs : Text) : (skipDigits cs).length ≤ cs.length := by
  induction cs with
  | nil => simp [skipDigits]
  | cons c cs ih =>
    simp only [skipDigits]
    split
    · simp only [List.length_cons]
      omega
    · exact Nat.le_refl _

theorem scanExp_length (cs r : Text) (h : scanExp cs = some r) : r.length ≤ cs.length := by
  unfold scanExp at h
  split at h
  · simp only [Option.some.injEq] at h
    rw [← h]
  · rename_i e t
    split at h
    · split at h
      · simp at h
      · rename_i d t2 heq
        split at h
        · simp only [Option.some.injEq] at h
          rw [← h]
          have h1 := skipDigits_length t2
          have h2 : (d :: t2).length ≤ t.length := by
            rw [← heq]
            split
            · exact Nat.le_refl _
            · split
              · simp only [List.length_cons]
                omega
              · exact Nat.le_refl _
          simp only [List.length_cons] at h2 ⊢
          omega
        · simp at h
    · simp only [Option.some.injEq] at h
      rw [← h]

theorem scanFrac_length (cs r : Text) (h : scanFrac cs = some r) : r.length ≤ cs.length := by
  unfold scanFrac at h
  split at h
  · simp only [Option.some.injEq] at h
    rw [← h]
  · rename_i p t
    split at h
    · split at h
      · simp at h
      · rename_i d t2
        split at h
        · have h1 := scanExp_length _ _ h
          have h2 := skipDigits_length t2
          simp only [List.length_cons]
          omega
        · simp at h
    · exact scanExp_length _ _ h

theorem scanInt_length (cs r : Text) (h : scanInt cs = some r) : r.length < cs.length := by
  unfold scanInt at h
  split at h
  · simp at h
  · rename_i c t
    split at h
    · have := scanFrac_length _ _ h
      simp only [List.length_cons]
      omega
    · split at h
      · have h1 := scanFrac_length _ _ h
        have h2 := skipDigits_length t
        simp only [List.length_cons]
        omega
      · simp at h

theorem scanNumber_length (cs r : Text) (h : scanNumber cs = some r) :
    r.length < cs.length := by
  unfold scanNumber at h
  split at h
  · simp at h
  · rename_i c t
    split at h
    · have := scanInt_length _ _ h
      simp only [List.length_cons]
      omega
    · exact scanInt_length _ _ h

theorem scanLiteral_length (cs r : Text) (b : Bool) (h : scanLiteral cs = some (b, r)) :
    r.length < cs.length := by
  unfold scanLiteral at h
  split at h <;> simp only [Option.some.injEq, Prod.mk.injEq, reduceCtorEq] at h
  all_goals
    rw [← h.2]
    simp only [List.length_cons]
    omega

theorem consItem_some {α : Type} (x : α) (r : Option (List α × Text)) (ys : List α)
    (rest : Text) (h : consItem x r = some (ys, rest)) :
    ∃ xs, r = some (xs, rest) ∧ ys = x :: xs := by
  cases r with
  | none => simp [consItem] at h
  | some p =>
    obtain ⟨a, b⟩ := p
    simp only [consItem, Option.some.injEq, Prod.mk.injEq] at h
    exact ⟨a, by rw [h.2], h.1.symm⟩

/-- One more unit of fuel does not change a parse that succeeded. -/
theorem scan_succ (n : Nat) :
    (∀ input r, scanValue n input = some r → scanValue (n + 1) input = some r) ∧
    (∀ input r, scanElems n input = some r → scanElems (n + 1) input = some r) ∧
    (∀ input r, scanMembers n input = some r → scanMembers (n + 1) input = some r) := by
  induction n with
  | zero =>
    refine ⟨?_, ?_, ?_⟩
    · intro input r h
      cases input <;> simp [scanValue] at h
    · intro input r h
      simp [scanElems] at h
    · intro input r h
      cases input <;> simp [scanMembers] at h
  | succ n ih =>
    obtain ⟨ihV, ihE, ihM⟩ := ih
    refine ⟨?_, ?_, ?_⟩
    · intro input r h
      cases input with
      | nil => simp [scanValue] at h
      | cons c cs =>
        unfold scanValue at h ⊢
        by_cases h1 : c = '"'
        · simpa [h1] using h
        by_cases h2 : c = '['
        · simp only [h1, h2, if_false, if_true] at h ⊢
          cases hsk : skipSpace cs with
          | nil => simp [hsk] at h
          | cons d t =>
            simp only [hsk] at h ⊢
            by_cases h3 : d = ']'
            · simpa [h3] using h
            · simp only [h3, if_false] at h ⊢
              cases he : scanElems n (d :: t) with
              | none => simp [he] at h
              | some x =>
                rw [ihE _ _ he]
                simpa [he] using h
        by_cases h4 : c = '\x7b'
        · simp only [h1, h2, h4, if_false, if_true] at h ⊢
          cases hsk : skipSpace cs with
          | nil => simp [hsk] at h
          | cons d t =>
            simp only [hsk] at h ⊢
            by_cases h3 : d = '\x7d'
            · simpa [h3] using h
            · simp only [h3, if_false] at h ⊢
              cases he : scanMembers n (d :: t) with
              | none => simp [he] at h
              | some x =>
                rw [ihM _ _ he]
                simpa [he] using h
        · simpa [h1, h2, h4] using h
    · intro input r h
      unfold scanElems at h ⊢
      cases hv : scanValue n input with
      | none => simp [hv] at h
      | some x =>
        obtain ⟨v, t⟩ := x
        rw [ihV _ _ hv]
        simp only [hv] at h ⊢
        cases hsk : skipSpace t with
        | nil => simp [hsk] at h
        | cons d t1 =>
          simp only [hsk] at h ⊢
          by_cases h3 : d = ','
          · simp only [h3, if_true] at h ⊢
            obtain ⟨ys, rest⟩ := r
            obtain ⟨xs, hx, hy⟩ := consItem_some _ _ _ _ h
            rw [ihE _ _ hx, hy]
            rfl
          · simpa [h3] using h
    · intro input r h
      cases input with
      | nil => simp [scanMembers] at h
      | cons c cs =>
        unfold scanMembers at h ⊢
        by_cases h1 : c = '"'
        · simp only [h1, if_true] at h ⊢
          cases hu : unquoteFrom none cs with
          | none => simp [hu] at h
          | some x =>
            obtain ⟨k, t⟩ := x
            simp only [hu] at h ⊢
            cases hsk : skipSpace t with
            | nil => simp [hsk] at h
            | cons d t1 =>
              simp only [hsk] at h ⊢
              by_cases h2 : d = ':'
              · simp only [h2, if_true] at h ⊢
                cases hv : scanValue n (skipSpace t1) with
                | none => simp [hv] at h
                | some y =>
                  obtain ⟨v, t2⟩ := y
                  rw [ihV _ _ hv]
                  simp only [hv] at h ⊢
                  cases hsk2 : skipSpace t2 with
                  | nil => simp [hsk2] at h
                  | cons e t3 =>
                    simp only [hsk2] at h ⊢
                    by_cases h3 : e = ','
                    · simp only [h3, if_true] at h ⊢
                      obtain ⟨ys, rest⟩ := r
                      obtain ⟨xs, hx, hy⟩ := consItem_some _ _ _ _ h
                      rw [ihM _ _ hx, hy]
                      rfl
                    · simpa [h3] using h
              · simp [h2] at h
        · simp [h1] at h

/-- More fuel does not change a parse that succeeded. -/
theorem scan_mono (n m : Nat) (hnm : n ≤ m) :
    (∀ input r, scanValue n input = some r → scanValue m input = some r) ∧
    (∀ input r, scanElems n input = some r → scanElems m input = some r) ∧
    (∀ input r, scanMembers n input = some r → scanMembers m input = some r) := by
  induction m with
  | zero =>
    have : n = 0 := by omega
    subst this
    exact ⟨fun _ _ h => h, fun _ _ h => h, fun _ _ h => h⟩
  | succ m ih =>
    by_cases hn : n = m + 1
    · subst hn
      exact ⟨fun _ _ h => h, fun _ _ h => h, fun _ _ h => h⟩
    · obtain ⟨a, b, c⟩ := ih (by omega)
      obtain ⟨a1, b1, c1⟩ := scan_succ m
      exact ⟨fun i r h => a1 i r (a i r h), fun i r h => b1 i r (b i r h),
        fun i r h => c1 i r (c i r h)⟩

/-- A parse that succeeds consumes input, and a fuel equal to the number of characters
it consumes is enough for it. -/
theorem scan_consumed (n : Nat) :
    (∀ input v rest, scanValue n input = some (v, rest) →
      rest.length < input.length ∧
      scanValue (input.length - rest.length) input = some (v, rest)) ∧
    (∀ input es rest, scanElems n input = some (es, rest) →
      rest.length < input.length ∧
      scanElems (input.length - rest.length) input = some (es, rest)) ∧
    (∀ input ms rest, scanMembers n input = some (ms, rest) →
      rest.length < input.length ∧
      scanMembers (input.length - rest.length) input = some (ms, rest)) := by
  induction n with
  | zero =>
    refine ⟨?_, ?_, ?_⟩
    · intro input v rest h
      cases input <;> simp [scanValue] at h
    · intro input es rest h
      simp [scanElems] at h
    · intro input ms rest h
      cases input <;> simp [scanMembers] at h
  | succ n ih =>
    obtain ⟨ihV, ihE, ihM⟩ := ih
    refine ⟨?_, ?_, ?_⟩
    · intro input v rest h
      have hlt : rest.length < input.length := by
        cases input with
        | nil => simp [scanValue] at h
        | cons c cs =>
          unfold scanValue at h
          by_cases h1 : c = '"'
          · rw [if_pos h1] at h
            cases hu : unquoteFrom none cs with
            | none => simp [hu] at h
            | some x =>
              obtain ⟨s, t⟩ := x
              simp only [hu, Option.some.injEq, Prod.mk.injEq] at h
              have := unquoteFrom_length cs.length cs none s t (Nat.le_refl _) hu
              rw [← h.2]
              simp only [List.length_cons]
              omega
          by_cases h2 : c = '['
          · rw [if_neg h1, if_pos h2] at h
            have hs := skipSpace_length cs
            cases hsk : skipSpace cs with
            | nil => simp [hsk] at h
            | cons d t =>
              rw [hsk] at hs
              simp only [hsk] at h
              by_cases h3 : d = ']'
              · simp only [h3, if_true, Option.some.injEq, Prod.mk.injEq] at h
                rw [← h.2]
                simp only [List.length_cons] at hs ⊢
                omega
              · simp only [h3, if_false] at h
                cases he : scanElems n (d :: t) with
                | none => simp [he] at h
                | some x =>
                  obtain ⟨es, t1⟩ := x
                  simp only [he, Option.some.injEq, Prod.mk.injEq] at h
                  have := (ihE _ _ _ he).1
                  rw [← h.2]
                  simp only [List.length_cons] at hs this ⊢
                  omega
          by_cases h4 : c = '\x7b'
          · rw [if_neg h1, if_neg h2, if_pos h4] at h
            have hs := skipSpace_length cs
            cases hsk : skipSpace cs with
            | nil => simp [hsk] at h
            | cons d t =>
              rw [hsk] at hs
              simp only [hsk] at h
              by_cases h3 : d = '\x7d'
              · simp only [h3, if_true, Option.some.injEq, Prod.mk.injEq] at h
                rw [← h.2]
                simp only [List.length_cons] at hs ⊢
                omega
              · simp only [h3, if_false] at h
                cases he : scanMembers n (d :: t) with
                | none => simp [he] at h
                | some x =>
                  obtain ⟨ms, t1⟩ := x
                  simp only [he, Option.some.injEq, Prod.mk.injEq] at h
                  have := (ihM _ _ _ he).1
                  rw [← h.2]
                  simp only [List.length_cons] at hs this ⊢
                  omega
          · rw [if_neg h1, if_neg h2, if_neg h4] at h
            cases hl : scanLiteral (c :: cs) with
            | some x =>
              obtain ⟨b, t⟩ := x
              simp only [hl, Option.some.injEq, Prod.mk.injEq] at h
              rw [← h.2]
              exact scanLiteral_length _ _ _ hl
            | none =>
              simp only [hl] at h
              cases hnum : scanNumber (c :: cs) with
              | none => simp [hnum] at h
              | some t =>
                simp only [hnum, Option.some.injEq, Prod.mk.injEq] at h
                rw [← h.2]
                exact scanNumber_length _ _ hnum
      refine ⟨hlt, ?_⟩
      obtain ⟨k, hk⟩ : ∃ k, input.length - rest.length = k + 1 :=
        ⟨input.length - rest.length - 1, by omega⟩
      rw [hk]
      cases input with
      | nil => simp [scanValue] at h
      | cons c cs =>
        unfold scanValue at h ⊢
        by_cases h1 : c = '"'
        · simpa [h1] using h
        by_cases h2 : c = '['
        · rw [if_neg h1, if_pos h2] at h ⊢
          have hs := skipSpace_length cs
          cases hsk : skipSpace cs with
          | nil => simp [hsk] at h
          | cons d t =>
            rw [hsk] at hs
            simp only [hsk] at h ⊢
            by_cases h3 : d = ']'
            · simpa [h3] using h
            · simp only [h3, if_false] at h ⊢
              cases he : scanElems n (d :: t) with
              | none => simp [he] at h
              | some x =>
                obtain ⟨es, t1⟩ := x
                simp only [he, Option.some.injEq, Prod.mk.injEq] at h
                obtain ⟨hl1, hl2⟩ := ihE _ _ _ he
                have hle : (d :: t).length - t1.length ≤ k := by
                  rw [← h.2] at hk
                  simp only [List.length_cons] at hs hk hl1 ⊢
                  omega
                rw [(scan_mono _ _ hle).2.1 _ _ hl2]
                simp [h.1, h.2]
        by_cases h4 : c = '\x7b'
        · rw [if_neg h1, if_neg h2, if_pos h4] at h ⊢
          have hs := skipSpace_length cs
          cases hsk : skipSpace cs with
          | nil => simp [hsk] at h
          | cons d t =>
            rw [hsk] at hs
            simp only [hsk] at h ⊢
            by_cases h3 : d = '\x7d'
            · simpa [h3] using h
            · simp only [h3, if_false] at h ⊢
              cases he : scanMembers n (d :: t) with
              | none => simp [he] at h
              | some x =>
                obtain ⟨ms, t1⟩ := x
                simp only [he, Option.some.injEq, Prod.mk.injEq] at h
                obtain ⟨hl1, hl2⟩ := ihM _ _ _ he
                have hle : (d :: t).length - t1.length ≤ k := by
                  rw [← h.2] at hk
                  simp only [List.length_cons] at hs hk hl1 ⊢
                  omega
                rw [(scan_mono _ _ hle).2.2 _ _ hl2]
                simp [h.1, h.2]
        · simpa [h1, h2, h4] using h
    · intro input es rest h
      unfold scanElems at h
      cases hv : scanValue n input with
      | none => simp [hv] at h
      | some x =>
        obtain ⟨v, t⟩ := x
        obtain ⟨hv1, hv2⟩ := ihV _ _ _ hv
        simp only [hv] at h
        have hs := skipSpace_length t
        cases hsk : skipSpace t with
        | nil => simp [hsk] at h
        | cons d t1 =>
          rw [hsk] at hs
          simp only [hsk] at h
          simp only [List.length_cons] at hs
          by_cases h3 : d = ','
          · simp only [h3, if_true] at h
            obtain ⟨xs, hx, hy⟩ := consItem_some _ _ _ _ h
            obtain ⟨hx1, hx2⟩ := ihE _ _ _ hx
            have hs2 := skipSpace_length t1
            refine ⟨by omega, ?_⟩
            obtain ⟨k, hk⟩ : ∃ k, input.length - rest.length = k + 1 :=
              ⟨input.length - rest.length - 1, by omega⟩
            rw [hk]
            unfold scanElems
            rw [(scan_mono _ k (by omega)).1 _ _ hv2]
            simp only [hsk, h3, if_true]
            rw [(scan_mono _ k (by omega)).2.1 _ _ hx2, hy]
            rfl
          · by_cases h5 : d = ']'
            · simp only [h3, h5, if_false, if_true, Option.some.injEq, Prod.mk.injEq] at h
              obtain ⟨rfl, rfl⟩ := h
              refine ⟨by omega, ?_⟩
              obtain ⟨k, hk⟩ : ∃ k, input.length - rest.length = k + 1 :=
                ⟨input.length - rest.length - 1, by omega⟩
              rw [hk]
              unfold scanElems
              rw [(scan_mono _ k (by omega)).1 _ _ hv2]
              simp [hsk, h3, h5]
            · simp [h3, h5] at h
    · intro input ms rest h
      cases input with
      | nil => simp [scanMembers] at h
      | cons c cs =>
        unfold scanMembers at h
        by_cases h1 : c = '"'
        · rw [if_pos h1] at h
          cases hu : unquoteFrom none cs with
          | none => simp [hu] at h
          | some x =>
            obtain ⟨key, t⟩ := x
            have hul := unquoteFrom_length cs.length cs none key t (Nat.le_refl _) hu
            simp only [hu] at h
            have hs := skipSpace_length t
            cases hsk : skipSpace t with
            | nil => simp [hsk] at h
            | cons d t1 =>
              rw [hsk] at hs
              simp only [hsk] at h
              simp only [List.length_cons] at hs
              by_cases h2 : d = ':'
              · simp only [h2, if_true] at h
                have hs1 := skipSpace_length t1
                cases hv : scanValue n (skipSpace t1) with
                | none => simp [hv] at h
                | some y =>
                  obtain ⟨v, t2⟩ := y
                  obtain ⟨hv1, hv2⟩ := ihV _ _ _ hv
                  simp only [hv] at h
                  have hs2 := skipSpace_length t2
                  cases hsk2 : skipSpace t2 with
                  | nil => simp [hsk2] at h
                  | cons e t3 =>
                    rw [hsk2] at hs2
                    simp only [hsk2] at h
                    simp only [List.length_cons] at hs2
                    by_cases h3 : e = ','
                    · simp only [h3, if_true] at h
                      obtain ⟨xs, hx, hy⟩ := consItem_some _ _ _ _ h
                      obtain ⟨hx1, hx2⟩ := ihM _ _ _ hx
                      have hs3 := skipSpace_length t3
                      refine ⟨by simp only [List.length_cons]; omega, ?_⟩
                      obtain ⟨k, hk⟩ : ∃ k, (c :: cs).length - rest.length = k + 1 :=
                        ⟨(c :: cs).length - rest.length - 1, by
                          simp only [List.length_cons]; omega⟩
                      rw [hk]
                      simp only [List.length_cons] at hk
                      unfold scanMembers
                      simp only [h1, if_true, hu, hsk, h2]
                      rw [(scan_mono _ k (by omega)).1 _ _ hv2]
                      simp only [hsk2, h3, if_true]
                      rw [(scan_mono _ k (by omega)).2.2 _ _ hx2, hy]
                      rfl
                    · by_cases h5 : e = '\x7d'
                      · simp only [h3, h5, if_false, if_true, Option.some.injEq,
                          Prod.mk.injEq] at h
                        obtain ⟨rfl, rfl⟩ := h
                        refine ⟨by simp only [List.length_cons]; omega, ?_⟩
                        obtain ⟨k, hk⟩ : ∃ k, (c :: cs).length - rest.length = k + 1 :=
                          ⟨(c :: cs).length - rest.length - 1, by
                            simp only [List.length_cons]; omega⟩
                        rw [hk]
                        simp only [List.length_cons] at hk
                        unfold scanMembers
                        simp only [h1, if_true, hu, hsk, h2]
                        rw [(scan_mono _ k (by omega)).1 _ _ hv2]
                        simp [hsk2, h3, h5]
                      · simp [h3, h5] at h
              · simp [h2] at h
        · simp [h1] at h

/-- The fuel `parseJSON` hands to the parser is enough: whenever some amount of fuel
parses the whole text, `parseJSON` returns that parse. -/
theorem parseJSON_complete (data : Text) (n : Nat) (v : JValue) (rest : Text)
    (h : scanValue n (skipSpace data) = some (v, rest)) (hr : skipSpace rest = []) :
    parseJSON data = some v := by
  obtain ⟨h1, h2⟩ := (scan_consumed n).1 _ _ _ h
  have hs := skipSpace_length data
  have := (scan_mono _ (data.length + 1) (by omega)).1 _ _ h2
  simp [parseJSON, this, hr]

/-! ## Creation: the stored record and the index -/

/-- C1 (amended). Creation on a stub whose calls go through, with `id` and `owner`
non-empty, `id` other than the index key, and `id` and the lower-cased `vin`, `make`,
`model`, `rego`, `owner` free of double quotes, backslashes and control characters:
`init_v5c` returns no error, the bytes stored at key `id`, which are what `Query` returns,
unmarshal without error to the record of `id` and the lower-cased fields, and the decoded
index holds `id` exactly once more than before. -/
theorem init_v5c_postcondition (caseTable : Char → Char) (stub : Stub)
    (id vin mk model rego owner : Text)
    (hok : stub.faults = []) (hid : id ≠ []) (hown : owner ≠ []) (hkey : id ≠ v5cIndexStr)
    (p0 : PlainText id) (p1 : PlainText (ToLower caseTable vin))
    (p2 : PlainText (ToLower caseTable mk)) (p3 : PlainText (ToLower caseTable model))
    (p4 : PlainText (ToLower caseTable rego)) (p5 : PlainText (ToLower caseTable owner)) :
    (init_v5c caseTable stub [id, vin, mk, model, rego, owner]).err = none ∧
    (Query (init_v5c caseTable stub [id, vin, mk, model, rego, owner]).stub
        "query".toList [id]).err = none ∧
    (init_v5c caseTable stub [id, vin, mk, model, rego, owner]).stub.state id
      = some (createdBytes caseTable stub [id, vin, mk, model, rego, owner]) ∧
    jsonUnmarshalV5C (createdBytes caseTable stub [id, vin, mk, model, rego, owner]) V5C.zero
      = (expectedRecord caseTable id vin mk model rego owner, false) ∧
    (decodedIndex (init_v5c caseTable stub [id, vin, mk, model, rego, owner]).stub).count id
      = (decodedIndex stub).count id + 1 := by
  obtain ⟨st, fs⟩ := stub
  simp only at hok
  subst hok
  have hkey2 : ¬ v5cIndexStr = id := fun h => hkey h.symm
  simp only [createdBytes, List.headD_cons, expectedRecord]
  rw [init_v5c_ok caseTable st id vin mk model rego owner hid hown]
  simp only [Query_ok, if_neg hkey, if_neg hkey2, if_true, Option.getD_some]
  refine ⟨trivial, trivial, trivial, ?_, ?_⟩
  · exact jsonUnmarshalV5C_v5cString
      ⟨id, ToLower caseTable vin, ToLower caseTable mk, ToLower caseTable model,
        ToLower caseTable rego, ToLower caseTable owner⟩ V5C.zero p0 p1 p2 p3 p4 p5
  · rw [decodedIndex_stored _ _ _ (if_pos rfl), decodedIndex_mk]
    simp [appendId, StringSlice.elems]

set_option maxRecDepth 100000 in
/-- C1 (witness): the creation of the running example, after `init(["100"])` on the empty
ledger: the record at `V1` decodes to the lower-cased fields and the index holds `V1`
once, where it held it zero times before. -/
theorem init_v5c_postcondition_witness :
    jsonUnmarshalV5C (createdBytes (fun c => c) (init emptyStub ["100".toList]).stub
        ["V1".toList, "1HGCM82633A004352".toList, "Honda".toList, "Civic".toList,
          "ABC123".toList, "Alice".toList]) V5C.zero
      = (⟨"V1".toList, "1hgcm82633a004352".toList, "honda".toList, "civic".toList,
          "abc123".toList, "alice".toList⟩, false) ∧
    (decodedIndex (init_v5c (fun c => c) (init emptyStub ["100".toList]).stub
        ["V1".toList, "1HGCM82633A004352".toList, "Honda".toList, "Civic".toList,
          "ABC123".toList, "Alice".toList]).stub).count "V1".toList
      = (decodedIndex (init emptyStub ["100".toList]).stub).count "V1".toList + 1 :=
  ⟨(init_v5c_postcondition (fun c => c) (init emptyStub ["100".toList]).stub
      "V1".toList "1HGCM82633A004352".toList "Honda".toList "Civic".toList
      "ABC123".toList "Alice".toList rfl (by decide) (by decide) (by decide)
      (by decide) (by decide) (by decide) (by decide) (by decide) (by decide)).2.2.2.1,
   (init_v5c_postcondition (fun c => c) (init emptyStub ["100".toList]).stub
      "V1".toList "1HGCM82633A004352".toList "Honda".toList "Civic".toList
      "ABC123".toList "Alice".toList rfl (by decide) (by decide) (by decide)
      (by decide) (by decide) (by decide) (by decide) (by decide) (by decide)).2.2.2.2⟩

set_option maxRecDepth 100000 in
/-- C1 (counterexamples). On the empty ledger `init_v5c` succeeds and the bytes found at
the id do not decode to the record of the lower-cased arguments when (1) `vin` holds a
double quote, (2) `vin` holds a backslash, (3) `vin` holds a newline, (4) the id is the
index key, whose value the index write replaces. -/
theorem init_v5c_postcondition_counterexample :
    ((init_v5c (fun c => c) emptyStub
        ["V1".toList, "a\"b".toList, "m".toList, "mo".toList, "r".toList, "o".toList]).err
        = none ∧
      decodeRecord (createdBytes (fun c => c) emptyStub
        ["V1".toList, "a\"b".toList, "m".toList, "mo".toList, "r".toList, "o".toList])
        ≠ expectedRecord (fun c => c) "V1".toList "a\"b".toList "m".toList "mo".toList
            "r".toList "o".toList) ∧
    ((init_v5c (fun c => c) emptyStub
        ["V1".toList, "a\\b".toList, "m".toList, "mo".toList, "r".toList, "o".toList]).err
        = none ∧
      decodeRecord (createdBytes (fun c => c) emptyStub
        ["V1".toList, "a\\b".toList, "m".toList, "mo".toList, "r".toList, "o".toList])
        ≠ expectedRecord (fun c => c) "V1".toList "a\\b".toList "m".toList "mo".toList
            "r".toList "o".toList) ∧
    ((init_v5c (fun c => c) emptyStub
        ["V1".toList, "a\nb".toList, "m".toList, "mo".toList, "r".toList, "o".toList]).err
        = none ∧
      decodeRecord (createdBytes (fun c => c) emptyStub
        ["V1".toList, "a\nb".toList, "m".toList, "mo".toList, "r".toList, "o".toList])
        ≠ expectedRecord (fun c => c) "V1".toList "a\nb".toList "m".toList "mo".toList
            "r".toList "o".toList) ∧
    ((init_v5c (fun c => c) emptyStub
        ["_v5cindex".toList, "v".toList, "m".toList, "mo".toList, "r".toList,
          "o".toList]).err = none ∧
      decodeRecord (createdBytes (fun c => c) emptyStub
        ["_v5cindex".toList, "v".toList, "m".toList, "mo".toList, "r".toList, "o".toList])
        ≠ expectedRecord (fun c => c) "_v5cindex".toList "v".toList "m".toList "mo".toList
            "r".toList "o".toList) := by
  decide

/-! ## The index-to-record invariant -/

/-- C2 (amended). Start from any ledger with a successful `init`, then run any finite
sequence of `init_v5c`, `update_v5c`, `set_owner` and `Delete` calls that all return no
error, on a stub whose calls go through, in which every `init_v5c` is passed an id that
the index decoded at that point does not hold: in the resulting ledger every id of the
decoded index has an entry at its key. -/
theorem index_invariant (caseTable : Char → Char) (stub0 : Stub) (a : List Text)
    (calls : List Call) (h0 : stub0.faults = []) (hinit : (init stub0 a).err = none)
    (hs : allSucceed caseTable (init stub0 a).stub calls = true)
    (hf : freshCreates caseTable (init stub0 a).stub calls = true) :
    ∀ id ∈ decodedIndex (finalStub caseTable (init stub0 a).stub calls),
      (finalStub caseTable (init stub0 a).stub calls).state id ≠ none := by
  obtain ⟨h1, h2⟩ := init_success stub0 a h0 hinit
  have hn : (decodedIndex (init stub0 a).stub).Nodup := by
    rw [h2]
    exact List.nodup_nil
  have hp : IndexedPresent (init stub0 a).stub := by
    rw [IndexedPresent, h2]
    exact fun x hx => absurd hx (List.not_mem_nil x)
  exact inv_calls caseTable calls _ h1 hn hp hs hf

set_option maxRecDepth 100000 in
/-- C2 (witness): after `init(["100"])`, creating `V1` and `V2`, changing the owner of
`V1`, updating `V2` and deleting `V1`, the index holds `V2` and key `V2` has an entry. -/
theorem index_invariant_witness :
    "V2".toList ∈ decodedIndex (finalStub (fun c => c) (init emptyStub ["100".toList]).stub
        [.init_v5c ["V1".toList, "v".toList, "m".toList, "mo".toList, "r".toList,
           "o".toList],
         .init_v5c ["V2".toList, "v".toList, "m".toList, "mo".toList, "r".toList,
           "o".toList],
         .set_owner ["V1".toList, "Bob".toList],
         .update_v5c ["V2".toList, "w".toList, "n".toList, "no".toList, "s".toList],
         .Delete ["V1".toList]]) ∧
    (finalStub (fun c => c) (init emptyStub ["100".toList]).stub
        [.init_v5c ["V1".toList, "v".toList, "m".toList, "mo".toList, "r".toList,
           "o".toList],
         .init_v5c ["V2".toList, "v".toList, "m".toList, "mo".toList, "r".toList,
           "o".toList],
         .set_owner ["V1".toList, "Bob".toList],
         .update_v5c ["V2".toList, "w".toList, "n".toList, "no".toList, "s".toList],
         .Delete ["V1".toList]]).state "V2".toList ≠ none :=
  ⟨by decide,
   index_invariant (fun c => c) emptyStub ["100".toList] _ rfl (by decide) (by decide)
    (by decide) "V2".toList (by decide)⟩

set_option maxRecDepth 100000 in
/-- C2 (counterexample). From the empty ledger, `init(["100"])`, then creating `V1`
twice and deleting it once, all without error and without a failing stub call, leaves
`V1` in the decoded index while key `V1` has no entry. -/
theorem index_invariant_counterexample :
    (init emptyStub ["100".toList]).err = none ∧
    allSucceed (fun c => c) (init emptyStub ["100".toList]).stub
      [.init_v5c ["V1".toList, "v".toList, "m".toList, "mo".toList, "r".toList, "o".toList],
       .init_v5c ["V1".toList, "v".toList, "m".toList, "mo".toList, "r".toList, "o".toList],
       .Delete ["V1".toList]] = true ∧
    "V1".toList ∈ decodedIndex (finalStub (fun c => c) (init emptyStub ["100".toList]).stub
      [.init_v5c ["V1".toList, "v".toList, "m".toList, "mo".toList, "r".toList, "o".toList],
       .init_v5c ["V1".toList, "v".toList, "m".toList, "mo".toList, "r".toList, "o".toList],
       .Delete ["V1".toList]]) ∧
    (finalStub (fun c => c) (init emptyStub ["100".toList]).stub
      [.init_v5c ["V1".toList, "v".toList, "m".toList, "mo".toList, "r".toList, "o".toList],
       .init_v5c ["V1".toList, "v".toList, "m".toList, "mo".toList, "r".toList, "o".toList],
       .Delete ["V1".toList]]).state "V1".toList = none := by
  decide

/-! ## Deletion: effect on the index -/

/-- C3 (amended). For an id other than the index key and a stub whose calls go through,
`Delete([id])` returns no error and the decoded index afterwards is the decoded index
before with exactly its first occurrence of the id removed: it is unchanged when the id
does not occur, and when the index is `pre ++ id :: post` with no id in `pre` it becomes
`pre ++ post`, so the id occurs once less and the other entries keep their values and
order. -/
theorem Delete_index_effect (stub : Stub) (id : Text) (hok : stub.faults = [])
    (hkey : id ≠ v5cIndexStr) :
    (Delete stub [id]).err = none ∧
    (id ∉ decodedIndex stub → decodedIndex (Delete stub [id]).stub = decodedIndex stub) ∧
    (∀ pre post, decodedIndex stub = pre ++ id :: post → id ∉ pre →
      decodedIndex (Delete stub [id]).stub = pre ++ post ∧
      (decodedIndex (Delete stub [id]).stub).count id + 1 = (decodedIndex stub).count id) := by
  obtain ⟨st, fs⟩ := stub
  simp only at hok
  subst hok
  refine ⟨by rw [Delete_ok], ?_, ?_⟩
  · intro h
    rw [decodedIndex_Delete st id hkey, removeFirst_of_not_mem _ _ h]
  · intro pre post hd hpre
    rw [decodedIndex_Delete st id hkey, hd, removeFirst_append _ _ _ hpre]
    refine ⟨rfl, ?_⟩
    simp [List.count_append]
    omega

set_option maxRecDepth 100000 in
/-- C3 (witness): deleting `V1` from the running example empties the index. -/
theorem Delete_index_effect_witness :
    (Delete demoStub ["V1".toList]).err = none ∧
    decodedIndex (Delete demoStub ["V1".toList]).stub = [] :=
  ⟨(Delete_index_effect demoStub "V1".toList rfl (by decide)).1,
   ((Delete_index_effect demoStub "V1".toList rfl (by decide)).2.2 [] [] (by decide)
      (by decide)).1⟩

set_option maxRecDepth 100000 in
/-- C3 (counterexample). In the running example the index decodes to `["V1"]` and does not
hold the index key; `Delete(["_v5cindex"])` succeeds and the index then decodes to the
empty sequence instead of staying as it was. -/
theorem Delete_index_effect_counterexample :
    decodedIndex demoStub = ["V1".toList] ∧
    (Delete demoStub ["_v5cindex".toList]).err = none ∧
    "_v5cindex".toList ∉ decodedIndex demoStub ∧
    decodedIndex (Delete demoStub ["_v5cindex".toList]).stub ≠ decodedIndex demoStub := by
  decide

/-! ## Update: fields written and fields kept -/

/-- C4. When key `id` holds bytes that unmarshal without error to a record `r` and
`update_v5c([id, vin, make, model, rego])` returns no error, the bytes at key `id`
afterwards unmarshal without error to the record with `vin`, `make`, `model`, `rego` as
passed (not lower-cased) and the `Id` and `Owner` of `r`. -/
theorem update_v5c_frame (stub : Stub) (id vin mk model rego b : Text) (r : V5C)
    (hb : stub.state id = some b) (hr : jsonUnmarshalV5C b V5C.zero = (r, false))
    (hsucc : (update_v5c stub [id, vin, mk, model, rego]).err = none) :
    ∃ b1, (update_v5c stub [id, vin, mk, model, rego]).stub.state id = some b1 ∧
      jsonUnmarshalV5C b1 V5C.zero = (⟨r.Id, vin, mk, model, rego, r.Owner⟩, false) := by
  refine ⟨_, update_v5c_success stub id vin mk model rego [] hsucc, ?_⟩
  rw [jsonUnmarshalV5C_jsonMarshalV5C]
  simp [decodeRecord, hb, hr]

set_option maxRecDepth 100000 in
/-- C4 (witness): in the running example after `set_owner(["V1","Bob"])`, the update
`update_v5c(["V1","2HGCM82633A004353","Toyota","Corolla","XYZ999"])` stores the four
fields as passed and keeps id `V1` and owner `Bob`. -/
theorem update_v5c_frame_witness :
    ∃ b1, (update_v5c (set_owner demoStub ["V1".toList, "Bob".toList]).stub
        ["V1".toList, "2HGCM82633A004353".toList, "Toyota".toList, "Corolla".toList,
          "XYZ999".toList]).stub.state "V1".toList = some b1 ∧
      jsonUnmarshalV5C b1 V5C.zero
        = (⟨"V1".toList, "2HGCM82633A004353".toList, "Toyota".toList, "Corolla".toList,
            "XYZ999".toList, "Bob".toList⟩, false) :=
  update_v5c_frame (set_owner demoStub ["V1".toList, "Bob".toList]).stub "V1".toList
    "2HGCM82633A004353".toList "Toyota".toList "Corolla".toList "XYZ999".toList
    (((set_owner demoStub ["V1".toList, "Bob".toList]).stub.state "V1".toList).getD [])
    ⟨"V1".toList, "1hgcm82633a004352".toList, "honda".toList, "civic".toList,
      "abc123".toList, "Bob".toList⟩
    (by decide) (by decide) (by decide)

/-! ## Transfer: fields written and fields kept -/

/-- C5. When key `id` holds bytes that unmarshal without error to a record `r` and
`set_owner([id, o])` returns no error, the bytes at key `id` afterwards unmarshal without
error to the record with owner `o` as passed (not lower-cased) and the `Id`, `Vin`,
`Make`, `Model` and `Rego` of `r`. -/
theorem set_owner_frame (stub : Stub) (id o b : Text) (r : V5C)
    (hb : stub.state id = some b) (hr : jsonUnmarshalV5C b V5C.zero = (r, false))
    (hsucc : (set_owner stub [id, o]).err = none) :
    ∃ b1, (set_owner stub [id, o]).stub.state id = some b1 ∧
      jsonUnmarshalV5C b1 V5C.zero = (⟨r.Id, r.Vin, r.Make, r.Model, r.Rego, o⟩, false) := by
  refine ⟨_, set_owner_success stub id o [] hsucc, ?_⟩
  rw [jsonUnmarshalV5C_jsonMarshalV5C]
  simp [decodeRecord, hb, hr]

set_option maxRecDepth 100000 in
/-- C5 (witness): in the running example `set_owner(["V1","Bob"])` stores owner `Bob` as
passed and keeps the other five fields. -/
theorem set_owner_frame_witness :
    ∃ b1, (set_owner demoStub ["V1".toList, "Bob".toList]).stub.state "V1".toList = some b1 ∧
      jsonUnmarshalV5C b1 V5C.zero
        = (⟨"V1".toList, "1hgcm82633a004352".toList, "honda".toList, "civic".toList,
            "abc123".toList, "Bob".toList⟩, false) :=
  set_owner_frame demoStub "V1".toList "Bob".toList
    ((demoStub.state "V1".toList).getD [])
    ⟨"V1".toList, "1hgcm82633a004352".toList, "honda".toList, "civic".toList,
      "abc123".toList, "alice".toList⟩
    (by decide) (by decide) (by decide)

/-! ## Record round trip -/

/-- C6 (amended). Every byte string produced by the record encoder, `json.Marshal` of a
`V5C`, is a fixed point of decoding and re-encoding; these are the bytes that a successful
`set_owner` and a successful `update_v5c` write at their first argument. -/
theorem record_round_trip :
    (∀ r : V5C, jsonMarshalV5C (decodeRecord (jsonMarshalV5C r)) = jsonMarshalV5C r) ∧
    (∀ (stub : Stub) (id o : Text) (more : List Text),
      (set_owner stub (id :: o :: more)).err = none →
      ∃ b, (set_owner stub (id :: o :: more)).stub.state id = some b ∧
        jsonMarshalV5C (decodeRecord b) = b) ∧
    (∀ (stub : Stub) (id vin mk model rego : Text) (more : List Text),
      (update_v5c stub (id :: vin :: mk :: model :: rego :: more)).err = none →
      ∃ b, (update_v5c stub (id :: vin :: mk :: model :: rego :: more)).stub.state id
          = some b ∧
        jsonMarshalV5C (decodeRecord b) = b) := by
  have key : ∀ r : V5C, jsonMarshalV5C (decodeRecord (jsonMarshalV5C r)) = jsonMarshalV5C r := by
    intro r
    simp [decodeRecord, jsonUnmarshalV5C_jsonMarshalV5C]
  refine ⟨key, ?_, ?_⟩
  · intro stub id o more h
    exact ⟨_, set_owner_success stub id o more h, key _⟩
  · intro stub id vin mk model rego more h
    exact ⟨_, update_v5c_success stub id vin mk model rego more h, key _⟩

set_option maxRecDepth 100000 in
/-- C6 (witness): the bytes `set_owner(["V1","Bob"])` writes in the running example
re-encode to themselves. -/
theorem record_round_trip_witness :
    ∃ b, (set_owner demoStub ["V1".toList, "Bob".toList]).stub.state "V1".toList = some b ∧
      jsonMarshalV5C (decodeRecord b) = b :=
  record_round_trip.2.1 demoStub "V1".toList "Bob".toList [] (by decide)

set_option maxRecDepth 100000 in
/-- C6 (counterexample). The bytes `init_v5c` writes at `V1` in the running example, the
concatenated text with a space after every colon and comma, decode to a record whose
re-encoding is a different byte string. -/
theorem record_round_trip_counterexample :
    demoStub.state "V1".toList
      = some (v5cString "V1".toList "1hgcm82633a004352".toList "honda".toList
          "civic".toList "abc123".toList "alice".toList) ∧
    jsonMarshalV5C (decodeRecord (v5cString "V1".toList "1hgcm82633a004352".toList
        "honda".toList "civic".toList "abc123".toList "alice".toList))
      ≠ v5cString "V1".toList "1hgcm82633a004352".toList "honda".toList "civic".toList
          "abc123".toList "alice".toList := by
  decide

/-! ## Creation: validation -/

/-- C7. `init_v5c` returns an error and leaves the stub as it found it (no stub call is
made) whenever the argument count is not 6, or `args[0]` is empty, or `args[5]` is empty;
with 6 arguments, non-empty `args[0]` and `args[5]` and a stub whose calls go through, it
returns no error. -/
theorem init_v5c_validation (caseTable : Char → Char) (stub : Stub) (args : List Text) :
    ((args.length ≠ 6 ∨ args[0]? = some [] ∨ args[5]? = some []) →
      (init_v5c caseTable stub args).err ≠ none ∧
      (init_v5c caseTable stub args).stub = stub) ∧
    (args.length = 6 → args[0]? ≠ some [] → args[5]? ≠ some [] → stub.faults = [] →
      (init_v5c caseTable stub args).err = none) := by
  rcases args with _ | ⟨a0, _ | ⟨a1, _ | ⟨a2, _ | ⟨a3, _ | ⟨a4, _ | ⟨a5, _ | ⟨a6, rest⟩⟩⟩⟩⟩⟩⟩
  case cons.cons.cons.cons.cons.cons.nil =>
    constructor
    · intro h
      simp only [List.length_cons, List.length_nil, ne_eq, not_true_eq_false, false_or] at h
      rcases h with h | h
      · have h0 : a0 = [] := by simpa using h
        subst h0
        simp [init_v5c, failWith]
      · have h5 : a5 = [] := by simpa using h
        subst h5
        by_cases h0 : a0.length ≤ 0 <;> simp [init_v5c, failWith, h0]
    · intro _ h0 h5 hok
      obtain ⟨st, fs⟩ := stub
      simp only at hok
      subst hok
      have h0' : a0 ≠ [] := by simpa using h0
      have h5' : a5 ≠ [] := by simpa using h5
      rw [init_v5c_ok caseTable st a0 a1 a2 a3 a4 a5 h0' h5']
  all_goals simp [init_v5c, failWith]

set_option maxRecDepth 100000 in
/-- C7 (witness): an empty id is refused without touching the stub, and a well-formed
creation on the empty ledger goes through. -/
theorem init_v5c_validation_witness :
    ((init_v5c (fun c => c) emptyStub
        ["".toList, "v".toList, "m".toList, "mo".toList, "r".toList, "o".toList]).err ≠ none ∧
      (init_v5c (fun c => c) emptyStub
        ["".toList, "v".toList, "m".toList, "mo".toList, "r".toList, "o".toList]).stub
        = emptyStub) ∧
    (init_v5c (fun c => c) emptyStub
        ["V1".toList, "v".toList, "m".toList, "mo".toList, "r".toList, "o".toList]).err
      = none :=
  ⟨(init_v5c_validation (fun c => c) emptyStub
      ["".toList, "v".toList, "m".toList, "mo".toList, "r".toList, "o".toList]).1
      (Or.inr (Or.inl rfl)),
   (init_v5c_validation (fun c => c) emptyStub
      ["V1".toList, "v".toList, "m".toList, "mo".toList, "r".toList, "o".toList]).2
      rfl (by decide) (by decide) rfl⟩

/-! ## Reading a deleted record -/

/-- C8 (amended). After `Delete([id])` on a stub whose calls go through, which returns no
error, `Query("query", [id])` returns no error either; for an id other than the index key
the key has no entry any more and the query returns the empty value. -/
theorem Delete_then_Query (stub : Stub) (id : Text) (hok : stub.faults = []) :
    (Delete stub [id]).err = none ∧
    (Query (Delete stub [id]).stub "query".toList [id]).err = none ∧
    (id ≠ v5cIndexStr →
      (Delete stub [id]).stub.state id = none ∧
      (Query (Delete stub [id]).stub "query".toList [id]).payload = []) := by
  obtain ⟨st, fs⟩ := stub
  simp only at hok
  subst hok
  rw [Delete_ok, Query_ok]
  refine ⟨rfl, rfl, ?_⟩
  intro hkey
  simp [hkey]

set_option maxRecDepth 100000 in
/-- C8 (witness): after deleting `V1` from the running example the key is gone and the
query returns the empty value without error. -/
theorem Delete_then_Query_witness :
    (Query (Delete demoStub ["V1".toList]).stub "query".toList ["V1".toList]).err = none ∧
    (Delete demoStub ["V1".toList]).stub.state "V1".toList = none ∧
    (Query (Delete demoStub ["V1".toList]).stub "query".toList ["V1".toList]).payload = [] :=
  ⟨(Delete_then_Query demoStub "V1".toList rfl).2.1,
   (Delete_then_Query demoStub "V1".toList rfl).2.2 (by decide)⟩

set_option maxRecDepth 100000 in
/-- C8 (counterexample). In the running example `V1` is readable; `Delete(["V1"])`
succeeds, and the following `Query("query", ["V1"])` returns no error: it returns the
empty value. -/
theorem Delete_then_Query_counterexample :
    (Query demoStub "query".toList ["V1".toList]).payload ≠ [] ∧
    (Delete demoStub ["V1".toList]).err = none ∧
    ¬ ((Query (Delete demoStub ["V1".toList]).stub "query".toList ["V1".toList]).err ≠ none) ∧
    (Query (Delete demoStub ["V1".toList]).stub "query".toList ["V1".toList]).payload = [] := by
  decide

/-! ## Deleting an absent id -/

/-- C9. When key `id` has no entry and the decoded index does not hold `id`, `Delete([id])`
leaves the decoded index as it was, and on a stub whose calls go through it returns no
error. -/
theorem Delete_absent (stub : Stub) (id : Text) (habs : stub.state id = none)
    (hidx : id ∉ decodedIndex stub) :
    (stub.faults = [] → (Delete stub [id]).err = none) ∧
    decodedIndex (Delete stub [id]).stub = decodedIndex stub := by
  constructor
  · intro hok
    obtain ⟨st, fs⟩ := stub
    simp only at hok
    subst hok
    rw [Delete_ok]
  · have hdel : (fun k => if k = id then none else stub.state k) = stub.state := by
      funext k
      by_cases hk : k = id
      · simp [hk, habs]
      · simp [hk]
    have hread : (if v5cIndexStr = id then none else stub.state v5cIndexStr)
        = stub.state v5cIndexStr := by
      by_cases hk : v5cIndexStr = id
      · simp [hk, habs]
      · simp [hk]
    rcases Delete_state stub id with h | h | h
    · exact decodedIndex_state _ _ h
    · exact decodedIndex_state _ _ (h.trans hdel)
    · have hs := congrFun h v5cIndexStr
      simp only [if_true, hread] at hs
      rw [decodedIndex_of_state _ _ hs, elems_map (removeFirst id) _ rfl]
      exact removeFirst_of_not_mem _ _ hidx

set_option maxRecDepth 100000 in
/-- C9 (witness): in the running example `V2` has no record and is not in the index;
deleting it succeeds and the index stays `["V1"]`. -/
theorem Delete_absent_witness :
    (Delete demoStub ["V2".toList]).err = none ∧
    decodedIndex (Delete demoStub ["V2".toList]).stub = decodedIndex demoStub :=
  ⟨(Delete_absent demoStub "V2".toList (by decide) (by decide)).1 rfl,
   (Delete_absent demoStub "V2".toList (by decide) (by decide)).2⟩

/-! ## Initialisation -/

/-- C10. On a stub whose calls go through, `init` returns no error exactly when `args` is
one element that `strconv.Atoi` parses; whenever `init` returns no error the index decoded
from the index key is empty, whatever was there before; and when the argument count is
not 1 or the argument does not parse, `init` returns an error and leaves the stub as it
found it (no stub call is made). -/
theorem init_spec (stub : Stub) (args : List Text) :
    (stub.faults = [] →
      ((init stub args).err = none ↔ ∃ a, args = [a] ∧ (Atoi a).isSome)) ∧
    ((init stub args).err = none → decodedIndex (init stub args).stub = []) ∧
    ((args.length ≠ 1 ∨ ∃ a, args = [a] ∧ Atoi a = none) →
      (init stub args).err ≠ none ∧ (init stub args).stub = stub) := by
  obtain ⟨st, fs⟩ := stub
  rcases args with _ | ⟨a, _ | ⟨b, rest⟩⟩
  · simp [init, failWith]
  · cases hA : Atoi a with
    | none => simp [init, failWith, hA]
    | some n =>
      refine ⟨?_, ?_, ?_⟩
      · intro hok
        simp only at hok
        subst hok
        simp [init_ok st a n hA, hA]
      · rcases fs with _ | ⟨f1, _ | ⟨f2, fs⟩⟩
        · intro _
          rw [init_ok st a n hA]
          exact decodedIndex_stored _ _ none (if_pos rfl)
        · cases f1
          · intro _
            simp only [init, hA, PutState, Stub.nextFails, Stub.advance, List.headD_cons,
              List.tail_cons, List.headD_nil, List.tail_nil, Bool.false_eq_true, if_false]
            exact decodedIndex_stored _ _ none (if_pos rfl)
          · simp [init, hA, PutState, Stub.nextFails, Stub.advance]
        · cases f1
          · cases f2
            · intro _
              simp only [init, hA, PutState, Stub.nextFails, Stub.advance, List.headD_cons,
                List.tail_cons, Bool.false_eq_true, if_false]
              exact decodedIndex_stored _ _ none (if_pos rfl)
            · simp [init, hA, PutState, Stub.nextFails, Stub.advance]
          · simp [init, hA, PutState, Stub.nextFails, Stub.advance]
      · intro h
        simp [hA] at h
  · simp [init, failWith]

/-- C10 (witness): `init(["100"])` on the empty ledger succeeds and leaves an empty
index; `init(["x"])` is refused without touching the stub. -/
theorem init_spec_witness :
    (init emptyStub ["100".toList]).err = none ∧
    decodedIndex (init emptyStub ["100".toList]).stub = [] ∧
    (init emptyStub ["x".toList]).err ≠ none ∧
    (init emptyStub ["x".toList]).stub = emptyStub :=
  ⟨((init_spec emptyStub ["100".toList]).1 rfl).2 ⟨_, rfl, by decide⟩,
   (init_spec emptyStub ["100".toList]).2.1
     (((init_spec emptyStub ["100".toList]).1 rfl).2 ⟨_, rfl, by decide⟩),
   (init_spec emptyStub ["x".toList]).2.2 (Or.inr ⟨_, rfl, by decide⟩)⟩

/-! ## Lemmas: what a stub call leaves alone -/

theorem GetState_state (stub : Stub) (key : Text) : (GetState stub key).2.state = stub.state := by
  unfold GetState
  split <;> rfl

theorem PutState_state (stub : Stub) (key value k : Text) (hk : k ≠ key) :
    (PutState stub key value).2.state k = stub.state k := by
  unfold PutState
  split
  · rfl
  · simp [hk]

theorem DelState_state (stub : Stub) (key k : Text) (hk : k ≠ key) :
    (DelState stub key).2.state k = stub.state k := by
  unfold DelState
  split
  · rfl
  · simp [hk]

theorem GetState_eq (stub s1 : Stub) (key : Text) (r : Option Text)
    (h : GetState stub key = (r, s1)) : s1.state = stub.state := by
  have := GetState_state stub key
  rw [h] at this
  exact this

theorem PutState_eq (stub s1 : Stub) (key value k : Text) (b : Bool)
    (h : PutState stub key value = (b, s1)) (hk : k ≠ key) : s1.state k = stub.state k := by
  have := PutState_state stub key value k hk
  rw [h] at this
  exact this

theorem DelState_eq (stub s1 : Stub) (key k : Text) (b : Bool)
    (h : DelState stub key = (b, s1)) (hk : k ≠ key) : s1.state k = stub.state k := by
  have := DelState_state stub key k hk
  rw [h] at this
  exact this

/-- `set_owner` leaves every key other than its first argument as it was. -/
theorem set_owner_other (stub : Stub) (args : List Text) (k : Text)
    (hk : args.head? ≠ some k) : (set_owner stub args).stub.state k = stub.state k := by
  rcases args with _ | ⟨a0, _ | ⟨a1, rest⟩⟩
  · rfl
  · rfl
  · have hk1 : k ≠ a0 := fun e => hk (by simp [e])
    unfold set_owner
    simp only
    split
    · rename_i s1 h1
      simp only [failWith]
      rw [GetState_eq _ _ _ _ h1]
    · rename_i b s1 h1
      split
      · rename_i s2 h2
        simp only
        rw [PutState_eq _ _ _ _ _ _ h2 hk1, GetState_eq _ _ _ _ h1]
      · rename_i s2 h2
        simp only
        rw [PutState_eq _ _ _ _ _ _ h2 hk1, GetState_eq _ _ _ _ h1]

/-- `update_v5c` leaves every key other than its first argument as it was. -/
theorem update_v5c_other (stub : Stub) (args : List Text) (k : Text)
    (hk : args.head? ≠ some k) : (update_v5c stub args).stub.state k = stub.state k := by
  rcases args with _ | ⟨a0, _ | ⟨a1, _ | ⟨a2, _ | ⟨a3, _ | ⟨a4, rest⟩⟩⟩⟩⟩
  case cons.cons.cons.cons.cons =>
    have hk1 : k ≠ a0 := fun e => hk (by simp [e])
    unfold update_v5c
    simp only
    split
    · rename_i s1 h1
      simp only [failWith]
      rw [GetState_eq _ _ _ _ h1]
    · rename_i b s1 h1
      split
      · rename_i s2 h2
        simp only
        rw [PutState_eq _ _ _ _ _ _ h2 hk1, GetState_eq _ _ _ _ h1]
      · rename_i s2 h2
        simp only
        rw [PutState_eq _ _ _ _ _ _ h2 hk1, GetState_eq _ _ _ _ h1]
  all_goals rfl

/-- `init_v5c` leaves every key other than its first argument and the index key as it
was. -/
theorem init_v5c_other (caseTable : Char → Char) (stub : Stub) (args : List Text) (k : Text)
    (hk : args.head? ≠ some k) (hx : k ≠ v5cIndexStr) :
    (init_v5c caseTable stub args).stub.state k = stub.state k := by
  rcases args with _ | ⟨a0, _ | ⟨a1, _ | ⟨a2, _ | ⟨a3, _ | ⟨a4, _ | ⟨a5, _ | ⟨a6, rest⟩⟩⟩⟩⟩⟩⟩
  case cons.cons.cons.cons.cons.cons.nil =>
    have hk1 : k ≠ a0 := fun e => hk (by simp [e])
    unfold init_v5c
    simp only
    split
    · rfl
    · split
      · rfl
      · split
        · rename_i s1 h1
          simp only
          rw [PutState_eq _ _ _ _ _ _ h1 hk1]
        · rename_i s1 h1
          split
          · rename_i s2 h2
            simp only [failWith]
            rw [GetState_eq _ _ _ _ h2, PutState_eq _ _ _ _ _ _ h1 hk1]
          · rename_i b s2 h2
            simp only
            rw [PutState_state _ _ _ _ hx, GetState_eq _ _ _ _ h2,
              PutState_eq _ _ _ _ _ _ h1 hk1]
  all_goals rfl

/-- `Delete` leaves every key other than its argument and the index key as it was. -/
theorem Delete_other (stub : Stub) (args : List Text) (k : Text)
    (hk : args.head? ≠ some k) (hx : k ≠ v5cIndexStr) :
    (Delete stub args).stub.state k = stub.state k := by
  rcases args with _ | ⟨a0, _ | ⟨a1, rest⟩⟩
  · rfl
  · have hk1 : k ≠ a0 := fun e => hk (by simp [e])
    unfold Delete
    simp only
    split
    · rename_i s1 h1
      simp only [failWith]
      rw [DelState_eq _ _ _ _ _ h1 hk1]
    · rename_i s1 h1
      split
      · rename_i s2 h2
        simp only [failWith]
        rw [GetState_eq _ _ _ _ h2, DelState_eq _ _ _ _ _ h1 hk1]
      · rename_i b s2 h2
        simp only
        rw [PutState_state _ _ _ _ hx, GetState_eq _ _ _ _ h2, DelState_eq _ _ _ _ _ h1 hk1]
  · rfl

/-- `init` leaves every key other than `abc` and the index key as it was. -/
theorem init_other (stub : Stub) (args : List Text) (k : Text)
    (hk : k ≠ "abc".toList) (hx : k ≠ v5cIndexStr) :
    (init stub args).stub.state k = stub.state k := by
  rcases args with _ | ⟨a0, _ | ⟨a1, rest⟩⟩
  · rfl
  · unfold init
    simp only
    split
    · rfl
    · split
      · rename_i s1 h1
        simp only
        rw [PutState_eq _ _ _ _ _ _ h1 hk]
      · rename_i s1 h1
        split
        · rename_i s2 h2
          simp only
          rw [PutState_eq _ _ _ _ _ _ h2 hx, PutState_eq _ _ _ _ _ _ h1 hk]
        · rename_i s2 h2
          simp only
          rw [PutState_eq _ _ _ _ _ _ h2 hx, PutState_eq _ _ _ _ _ _ h1 hk]
  · rfl

/-- `Write` leaves every key other than its first argument as it was. -/
theorem Write_other (stub : Stub) (args : List Text) (k : Text)
    (hk : args.head? ≠ some k) : (Write stub args).stub.state k = stub.state k := by
  rcases args with _ | ⟨a0, _ | ⟨a1, _ | ⟨a2, rest⟩⟩⟩
  case cons.cons.nil =>
    have hk1 : k ≠ a0 := fun e => hk (by simp [e])
    unfold Write
    simp only
    split
    · rename_i s1 h1
      simp only
      rw [PutState_eq _ _ _ _ _ _ h1 hk1]
    · rename_i s1 h1
      simp only
      rw [PutState_eq _ _ _ _ _ _ h1 hk1]
  all_goals rfl

/-! ## Key frame of the handlers -/

/-- C20. Whatever stub calls fail: `init_v5c` and `Delete` leave the value at every key
other than their first argument and the index key unchanged, `set_owner` and `update_v5c`
leave the value at every key other than their first argument unchanged, and `init` leaves
the value at every key other than `abc` and the index key unchanged; so a handler called
with one id never alters what is stored under a different id (other than the index
key). -/
theorem key_frame (caseTable : Char → Char) (stub : Stub) (args : List Text) (k : Text) :
    (args.head? ≠ some k → k ≠ v5cIndexStr →
      (init_v5c caseTable stub args).stub.state k = stub.state k ∧
      (Delete stub args).stub.state k = stub.state k) ∧
    (args.head? ≠ some k →
      (set_owner stub args).stub.state k = stub.state k ∧
      (update_v5c stub args).stub.state k = stub.state k) ∧
    (k ≠ "abc".toList → k ≠ v5cIndexStr → (init stub args).stub.state k = stub.state k) :=
  ⟨fun hk hx => ⟨init_v5c_other caseTable stub args k hk hx, Delete_other stub args k hk hx⟩,
   fun hk => ⟨set_owner_other stub args k hk, update_v5c_other stub args k hk⟩,
   fun hk hx => init_other stub args k hk hx⟩

set_option maxRecDepth 100000 in
/-- C20 (witness): in the running example, deleting `V2`, changing the owner of `V2` and
re-initialising all leave the record stored under `V1` as it was. -/
theorem key_frame_witness :
    (Delete demoStub ["V2".toList]).stub.state "V1".toList = demoStub.state "V1".toList ∧
    (set_owner demoStub ["V2".toList, "Bob".toList]).stub.state "V1".toList
      = demoStub.state "V1".toList ∧
    (init demoStub ["7".toList]).stub.state "V1".toList = demoStub.state "V1".toList :=
  ⟨((key_frame (fun c => c) demoStub ["V2".toList] "V1".toList).1 (by decide)
      (by decide)).2,
   ((key_frame (fun c => c) demoStub ["V2".toList, "Bob".toList] "V1".toList).2.1
      (by decide)).1,
   (key_frame (fun c => c) demoStub ["7".toList] "V1".toList).2.2 (by decide) (by decide)⟩

/-! ## Update and transfer against the index -/

/-- C12 (amended). Whenever the first argument is not the index key, and whether the call
succeeds or fails, the value stored at the index key after `update_v5c` and after
`set_owner` is the value stored there before. -/
theorem index_untouched (stub : Stub) (args : List Text)
    (hk : args.head? ≠ some v5cIndexStr) :
    (update_v5c stub args).stub.state v5cIndexStr = stub.state v5cIndexStr ∧
    (set_owner stub args).stub.state v5cIndexStr = stub.state v5cIndexStr :=
  ⟨update_v5c_other stub args v5cIndexStr hk, set_owner_other stub args v5cIndexStr hk⟩

set_option maxRecDepth 100000 in
/-- C12 (witness): in the running example an update and a transfer of `V1` leave the bytes
at the index key as they were. -/
theorem index_untouched_witness :
    (update_v5c demoStub ["V1".toList, "w".toList, "n".toList, "no".toList,
        "s".toList]).stub.state v5cIndexStr = demoStub.state v5cIndexStr ∧
    (set_owner demoStub ["V1".toList, "w".toList, "n".toList, "no".toList,
        "s".toList]).stub.state v5cIndexStr = demoStub.state v5cIndexStr :=
  index_untouched demoStub
    ["V1".toList, "w".toList, "n".toList, "no".toList, "s".toList] (by decide)

set_option maxRecDepth 100000 in
/-- C12 (counterexample). In the running example `set_owner(["_v5cindex","Bob"])` and
`update_v5c(["_v5cindex","w","n","no","s"])` succeed and replace the value at the index
key, after which the index decodes to the empty sequence instead of `["V1"]`. -/
theorem index_untouched_counterexample :
    ((set_owner demoStub ["_v5cindex".toList, "Bob".toList]).err = none ∧
      (set_owner demoStub ["_v5cindex".toList, "Bob".toList]).stub.state v5cIndexStr
        ≠ demoStub.state v5cIndexStr ∧
      decodedIndex demoStub = ["V1".toList] ∧
      decodedIndex (set_owner demoStub ["_v5cindex".toList, "Bob".toList]).stub = []) ∧
    ((update_v5c demoStub ["_v5cindex".toList, "w".toList, "n".toList, "no".toList,
        "s".toList]).err = none ∧
      (update_v5c demoStub ["_v5cindex".toList, "w".toList, "n".toList, "no".toList,
        "s".toList]).stub.state v5cIndexStr ≠ demoStub.state v5cIndexStr) := by
  decide

/-! ## Dispatch -/

/-- C16. `Run` with a function name other than the six it knows returns an error and
leaves the stub as it found it (no stub call is made); `Query` with a function name other
than `query` returns an error and leaves the stub as it found it; and for each of the six
known names `Run` returns exactly what the handler of that name returns on the same stub
and arguments. -/
theorem dispatch (caseTable : Char → Char) (stub : Stub) (function : Text)
    (args : List Text) :
    (function ∉ knownFunctions →
      (Run caseTable stub function args).err ≠ none ∧
      (Run caseTable stub function args).stub = stub) ∧
    (function ≠ "query".toList →
      (Query stub function args).err ≠ none ∧ (Query stub function args).stub = stub) ∧
    Run caseTable stub "init".toList args = init stub args ∧
    Run caseTable stub "delete".toList args = Delete stub args ∧
    Run caseTable stub "write".toList args = Write stub args ∧
    Run caseTable stub "init_v5c".toList args = init_v5c caseTable stub args ∧
    Run caseTable stub "set_owner".toList args = set_owner stub args ∧
    Run caseTable stub "update_v5c".toList args = update_v5c stub args := by
  refine ⟨?_, ?_, ?_, ?_, ?_, ?_, ?_, ?_⟩
  · intro h
    simp only [knownFunctions, List.mem_cons, List.mem_singleton, List.not_mem_nil,
      or_false, not_or] at h
    obtain ⟨h1, h2, h3, h4, h5, h6⟩ := h
    unfold Run
    rw [if_neg h1, if_neg h2, if_neg h3, if_neg h4, if_neg h5, if_neg h6]
    exact ⟨by simp [failWith], rfl⟩
  · intro h
    unfold Query
    rw [if_pos h]
    exact ⟨by simp [failWith], rfl⟩
  · unfold Run
    rw [if_pos rfl]
  · unfold Run
    rw [if_neg (by decide), if_pos rfl]
  · unfold Run
    rw [if_neg (by decide), if_neg (by decide), if_pos rfl]
  · unfold Run
    rw [if_neg (by decide), if_neg (by decide), if_neg (by decide), if_pos rfl]
  · unfold Run
    rw [if_neg (by decide), if_neg (by decide), if_neg (by decide), if_neg (by decide),
      if_pos rfl]
  · unfold Run
    rw [if_neg (by decide), if_neg (by decide), if_neg (by decide), if_neg (by decide),
      if_neg (by decide), if_pos rfl]

set_option maxRecDepth 100000 in
/-- C16 (witness): `Run` refuses the name `query`, and `Query` refuses the name `read`,
both without touching the running example. -/
theorem dispatch_witness :
    ((Run (fun c => c) demoStub "query".toList ["V1".toList]).err ≠ none ∧
      (Run (fun c => c) demoStub "query".toList ["V1".toList]).stub = demoStub) ∧
    ((Query demoStub "read".toList ["V1".toList]).err ≠ none ∧
      (Query demoStub "read".toList ["V1".toList]).stub = demoStub) :=
  ⟨(dispatch (fun c => c) demoStub "query".toList ["V1".toList]).1 (by decide),
   (dispatch (fun c => c) demoStub "read".toList ["V1".toList]).2.1 (by decide)⟩

/-! ## Raw write and raw read -/

/-- A successful `Write` has stored its second argument at its first. -/
theorem Write_success (stub : Stub) (k v : Text) (h : (Write stub [k, v]).err = none) :
    (Write stub [k, v]).stub.state k = some v := by
  obtain ⟨st, fs⟩ := stub
  revert h
  rcases fs with _ | ⟨f1, fs⟩ <;> (try cases f1) <;>
    simp [Write, PutState, Stub.nextFails, Stub.advance]

/-- A `Query` that returns no error returns the value at the key, nothing for a key
without an entry. -/
theorem Query_success (stub : Stub) (k : Text)
    (h : (Query stub "query".toList [k]).err = none) :
    (Query stub "query".toList [k]).payload = (stub.state k).getD [] := by
  obtain ⟨st, fs⟩ := stub
  revert h
  rcases fs with _ | ⟨f1, fs⟩ <;> (try cases f1) <;>
    simp [Query, GetState, Stub.nextFails, Stub.advance, failWith]

/-- C13. After `Write([k, v])` returns no error, key `k` holds `v` and the value at every
other key is unchanged; a following `Query("query", [k])` returns exactly `v` whenever it
returns no error, which it does when its stub call goes through; and with an argument
count other than 2 `Write` returns an error and leaves the stub as it found it. -/
theorem Write_then_Query (stub : Stub) (args : List Text) :
    (∀ k v, args = [k, v] → (Write stub args).err = none →
      (Write stub args).stub.state k = some v ∧
      (∀ k1, k1 ≠ k → (Write stub args).stub.state k1 = stub.state k1) ∧
      ((Query (Write stub args).stub "query".toList [k]).err = none →
        (Query (Write stub args).stub "query".toList [k]).payload = v) ∧
      ((Write stub args).stub.faults = [] →
        (Query (Write stub args).stub "query".toList [k]).err = none)) ∧
    (args.length ≠ 2 → (Write stub args).err ≠ none ∧ (Write stub args).stub = stub) := by
  constructor
  · intro k v ha hs
    subst ha
    have hw := Write_success stub k v hs
    refine ⟨hw, ?_, ?_, ?_⟩
    · intro k1 hk1
      exact Write_other stub [k, v] k1 (by simpa using fun e => hk1 e.symm)
    · intro hq
      rw [Query_success _ k hq, hw]
      rfl
    · intro hf
      generalize (Write stub [k, v]).stub = s at hf
      obtain ⟨st, fs⟩ := s
      simp only at hf
      subst hf
      rw [Query_ok]
  · intro h
    rcases args with _ | ⟨a0, _ | ⟨a1, _ | ⟨a2, rest⟩⟩⟩
    case cons.cons.nil => simp at h
    all_goals simp [Write, failWith]

set_option maxRecDepth 100000 in
/-- C13 (witness): writing `hello` at `k1` in the running example and reading it back. -/
theorem Write_then_Query_witness :
    (Query (Write demoStub ["k1".toList, "hello".toList]).stub "query".toList
        ["k1".toList]).payload = "hello".toList ∧
    (Write demoStub ["k1".toList]).err ≠ none :=
  ⟨((Write_then_Query demoStub ["k1".toList, "hello".toList]).1 _ _ rfl (by decide)).2.2.1
      (by decide),
   ((Write_then_Query demoStub ["k1".toList]).2 (by decide)).1⟩

/-! ## Lemmas: failed stub calls -/

theorem add_two_sub (n : Nat) : n + 1 + 1 - n = 2 := by omega

theorem init_propagates (stub : Stub) (args : List Text)
    (h : someCallFailed stub (init stub args) = true) : (init stub args).err ≠ none := by
  obtain ⟨st, fs⟩ := stub
  revert h
  rcases args with _ | ⟨a, _ | ⟨b, rest⟩⟩
  · simp [init, failWith, someCallFailed]
  · cases hA : Atoi a with
    | none => simp [init, failWith, someCallFailed, hA]
    | some n =>
      rcases fs with _ | ⟨f1, _ | ⟨f2, fs⟩⟩ <;> (try cases f1) <;> (try cases f2) <;>
        simp [init, someCallFailed, hA, PutState, Stub.nextFails, Stub.advance, add_two_sub]
  · simp [init, failWith, someCallFailed]

theorem Write_propagates (stub : Stub) (args : List Text)
    (h : someCallFailed stub (Write stub args) = true) : (Write stub args).err ≠ none := by
  obtain ⟨st, fs⟩ := stub
  revert h
  rcases args with _ | ⟨a0, _ | ⟨a1, _ | ⟨a2, rest⟩⟩⟩
  case cons.cons.nil =>
    rcases fs with _ | ⟨f1, fs⟩ <;> (try cases f1) <;>
      simp [Write, someCallFailed, PutState, Stub.nextFails, Stub.advance]
  all_goals simp [Write, failWith, someCallFailed]

theorem Query_propagates (stub : Stub) (function : Text) (args : List Text)
    (h : someCallFailed stub (Query stub function args) = true) :
    (Query stub function args).err ≠ none := by
  obtain ⟨st, fs⟩ := stub
  revert h
  unfold Query
  split
  · simp [failWith, someCallFailed]
  · rcases args with _ | ⟨a0, _ | ⟨a1, rest⟩⟩
    · simp [failWith, someCallFailed]
    · rcases fs with _ | ⟨f1, fs⟩ <;> (try cases f1) <;>
        simp [someCallFailed, GetState, Stub.nextFails, Stub.advance, failWith]
    · simp [failWith, someCallFailed]

theorem set_owner_propagates (stub : Stub) (args : List Text)
    (h : someCallFailed stub (set_owner stub args) = true) :
    (set_owner stub args).err ≠ none := by
  obtain ⟨st, fs⟩ := stub
  revert h
  rcases args with _ | ⟨a0, _ | ⟨a1, rest⟩⟩
  · simp [set_owner, failWith, someCallFailed]
  · simp [set_owner, failWith, someCallFailed]
  · rcases fs with _ | ⟨f1, _ | ⟨f2, fs⟩⟩ <;> (try cases f1) <;> (try cases f2) <;>
      simp [set_owner, someCallFailed, GetState, PutState, Stub.nextFails, Stub.advance,
        failWith, add_two_sub]

theorem update_v5c_propagates (stub : Stub) (args : List Text)
    (h : someCallFailed stub (update_v5c stub args) = true) :
    (update_v5c stub args).err ≠ none := by
  obtain ⟨st, fs⟩ := stub
  revert h
  rcases args with _ | ⟨a0, _ | ⟨a1, _ | ⟨a2, _ | ⟨a3, _ | ⟨a4, rest⟩⟩⟩⟩⟩
  case cons.cons.cons.cons.cons =>
    rcases fs with _ | ⟨f1, _ | ⟨f2, fs⟩⟩ <;> (try cases f1) <;> (try cases f2) <;>
      simp [update_v5c, someCallFailed, GetState, PutState, Stub.nextFails, Stub.advance,
        failWith, add_two_sub]
  all_goals simp [update_v5c, failWith, someCallFailed]

/-! ## Error propagation -/

set_option maxRecDepth 100000 in
/-- C11 (the code at the failing input). `init`, `Write`, `Query`, `set_owner` and
`update_v5c` return an error whenever one of the stub calls they issue fails. `Delete` and
`init_v5c` do not: on the running example with a stub whose third call fails, the final
index write of `Delete(["V1"])` fails and `Delete` returns no error, leaving `V1` in the
index with no entry at its key; likewise the final index write of the creation of `V2`
fails and `init_v5c` returns no error, leaving an entry at `V2` that the index does not
hold. -/
theorem error_propagation_failing_input :
    (∀ (stub : Stub) (args : List Text),
      (someCallFailed stub (init stub args) = true → (init stub args).err ≠ none) ∧
      (someCallFailed stub (Write stub args) = true → (Write stub args).err ≠ none) ∧
      (someCallFailed stub (set_owner stub args) = true → (set_owner stub args).err ≠ none) ∧
      (someCallFailed stub (update_v5c stub args) = true →
        (update_v5c stub args).err ≠ none) ∧
      (∀ function, someCallFailed stub (Query stub function args) = true →
        (Query stub function args).err ≠ none)) ∧
    (someCallFailed faultyStub (Delete faultyStub ["V1".toList]) = true ∧
      (Delete faultyStub ["V1".toList]).err = none ∧
      (Delete faultyStub ["V1".toList]).stub.state "V1".toList = none ∧
      decodedIndex (Delete faultyStub ["V1".toList]).stub = ["V1".toList]) ∧
    (someCallFailed faultyStub (init_v5c (fun c => c) faultyStub
        ["V2".toList, "v".toList, "m".toList, "mo".toList, "r".toList, "o".toList]) = true ∧
      (init_v5c (fun c => c) faultyStub
        ["V2".toList, "v".toList, "m".toList, "mo".toList, "r".toList, "o".toList]).err
        = none ∧
      (init_v5c (fun c => c) faultyStub
        ["V2".toList, "v".toList, "m".toList, "mo".toList, "r".toList,
          "o".toList]).stub.state "V2".toList ≠ none ∧
      decodedIndex (init_v5c (fun c => c) faultyStub
        ["V2".toList, "v".toList, "m".toList, "mo".toList, "r".toList, "o".toList]).stub
        = ["V1".toList]) := by
  refine ⟨fun stub args => ⟨init_propagates stub args, Write_propagates stub args,
    set_owner_propagates stub args, update_v5c_propagates stub args,
    fun function => Query_propagates stub function args⟩, by decide, by decide⟩

/-! ## Update and transfer on a missing record -/

theorem decodeRecord_notAnObject (data : Text) (h : notAnObject data = true) :
    decodeRecord data = V5C.zero := by
  unfold notAnObject at h
  unfold decodeRecord jsonUnmarshalV5C
  split at h
  · simp at h
  · rename_i hno
    split
    · rfl
    · rename_i ms hp
      exact absurd hp (hno ms)
    · rfl
    · rfl

theorem set_owner_read_fails (stub : Stub) (id o : Text) (more : List Text)
    (h : stub.nextFails = true) :
    (set_owner stub (id :: o :: more)).err = some (.new "Failed to get thing") ∧
    (set_owner stub (id :: o :: more)).stub.state = stub.state := by
  simp [set_owner, GetState, h, failWith, Stub.advance]

theorem update_v5c_read_fails (stub : Stub) (id vin mk model rego : Text) (more : List Text)
    (h : stub.nextFails = true) :
    (update_v5c stub (id :: vin :: mk :: model :: rego :: more)).err
      = some (.new "Failed to get thing") ∧
    (update_v5c stub (id :: vin :: mk :: model :: rego :: more)).stub.state = stub.state := by
  simp [update_v5c, GetState, h, failWith, Stub.advance]

/-- C14 (amended). `update_v5c` and `set_owner` fail with the retrieval error, writing
nothing, when their store read fails; when key `id` has no entry and the stub calls go
through, they return no error and leave an entry at key `id`. -/
theorem missing_record (stub : Stub) (id o vin mk model rego : Text) :
    (stub.nextFails = true →
      (set_owner stub [id, o]).err = some (.new "Failed to get thing") ∧
      (set_owner stub [id, o]).stub.state = stub.state ∧
      (update_v5c stub [id, vin, mk, model, rego]).err = some (.new "Failed to get thing") ∧
      (update_v5c stub [id, vin, mk, model, rego]).stub.state = stub.state) ∧
    (stub.state id = none → stub.faults = [] →
      (set_owner stub [id, o]).err = none ∧
      (set_owner stub [id, o]).stub.state id ≠ none ∧
      (update_v5c stub [id, vin, mk, model, rego]).err = none ∧
      (update_v5c stub [id, vin, mk, model, rego]).stub.state id ≠ none) := by
  constructor
  · intro h
    exact ⟨(set_owner_read_fails stub id o [] h).1, (set_owner_read_fails stub id o [] h).2,
      (update_v5c_read_fails stub id vin mk model rego [] h).1,
      (update_v5c_read_fails stub id vin mk model rego [] h).2⟩
  · intro _ hok
    obtain ⟨st, fs⟩ := stub
    simp only at hok
    subst hok
    rw [set_owner_ok, update_v5c_ok]
    simp

set_option maxRecDepth 100000 in
/-- C14 (witness): on the running example with a failing store read the transfer of `V2`
fails and writes nothing; with stub calls that go through it succeeds and `V2` gets an
entry. -/
theorem missing_record_witness :
    ((set_owner ⟨demoStub.state, [true]⟩ ["V2".toList, "Bob".toList]).err
        = some (.new "Failed to get thing") ∧
      (set_owner ⟨demoStub.state, [true]⟩ ["V2".toList, "Bob".toList]).stub.state
        = demoStub.state) ∧
    ((set_owner demoStub ["V2".toList, "Bob".toList]).err = none ∧
      (set_owner demoStub ["V2".toList, "Bob".toList]).stub.state "V2".toList ≠ none) :=
  ⟨⟨((missing_record ⟨demoStub.state, [true]⟩ "V2".toList "Bob".toList [] [] [] []).1 rfl).1,
    ((missing_record ⟨demoStub.state, [true]⟩ "V2".toList "Bob".toList [] [] [] []).1
      rfl).2.1⟩,
   ⟨((missing_record demoStub "V2".toList "Bob".toList [] [] [] []).2 (by decide) rfl).1,
    ((missing_record demoStub "V2".toList "Bob".toList [] [] [] []).2 (by decide)
      rfl).2.1⟩⟩

set_option maxRecDepth 100000 in
/-- C14 (counterexample). In the running example key `V2` has no entry;
`set_owner(["V2","Bob"])` and `update_v5c(["V2","w","n","no","s"])` return no error and
each leaves an entry at `V2`. -/
theorem missing_record_counterexample :
    demoStub.state "V2".toList = none ∧
    (set_owner demoStub ["V2".toList, "Bob".toList]).err = none ∧
    (set_owner demoStub ["V2".toList, "Bob".toList]).stub.state "V2".toList ≠ none ∧
    (update_v5c demoStub ["V2".toList, "w".toList, "n".toList, "no".toList,
      "s".toList]).err = none ∧
    (update_v5c demoStub ["V2".toList, "w".toList, "n".toList, "no".toList,
      "s".toList]).stub.state "V2".toList ≠ none := by
  decide

/-! ## Zero-valued materialisation -/

/-- C18 (amended). When key `id` has no entry, or holds bytes that are not valid JSON or
whose JSON value is not an object, and the stub calls go through: `set_owner([id, o])`
returns no error and writes at key `id` the encoding of the record with owner `o` and the
other five fields empty, and `update_v5c([id, v, m, mo, r])` returns no error and writes
the encoding of the record with `vin`, `make`, `model`, `rego` as passed and `id` and
`owner` empty. -/
theorem zero_materialisation (stub : Stub) (id o v m mo r : Text)
    (hok : stub.faults = [])
    (hb : stub.state id = none ∨ ∃ b, stub.state id = some b ∧ notAnObject b = true) :
    (set_owner stub [id, o]).err = none ∧
    (set_owner stub [id, o]).stub.state id = some (jsonMarshalV5C ⟨[], [], [], [], [], o⟩) ∧
    (update_v5c stub [id, v, m, mo, r]).err = none ∧
    (update_v5c stub [id, v, m, mo, r]).stub.state id
      = some (jsonMarshalV5C ⟨[], v, m, mo, r, []⟩) := by
  obtain ⟨st, fs⟩ := stub
  simp only at hok hb
  subst hok
  have hz : decodeRecord ((st id).getD []) = V5C.zero := by
    rcases hb with h | ⟨b, h1, h2⟩
    · rw [h]
      exact decodeRecord_notAnObject _ (by decide)
    · rw [h1]
      exact decodeRecord_notAnObject _ h2
  rw [set_owner_ok, update_v5c_ok, hz]
  simp [V5C.zero]

set_option maxRecDepth 100000 in
/-- C18 (witness): in the running example `V2` has no entry and the transfer to `Bob`
writes the record with owner `Bob` and nothing else. -/
theorem zero_materialisation_witness :
    (set_owner demoStub ["V2".toList, "Bob".toList]).stub.state "V2".toList
      = some (jsonMarshalV5C ⟨[], [], [], [], [], "Bob".toList⟩) :=
  (zero_materialisation demoStub "V2".toList "Bob".toList [] [] [] [] rfl
    (Or.inl (by decide))).2.1

set_option maxRecDepth 100000 in
/-- C18 (counterexample). Key `V3` holds an object whose `vin` is a number: unmarshalling
it returns an error, yet the `id` it carries is kept, so `set_owner(["V3","Bob"])`, which
succeeds, writes a record whose id is `x` and not the record with only the owner. -/
theorem zero_materialisation_counterexample :
    (jsonUnmarshalV5C ((typeErrorStub.state "V3".toList).getD []) V5C.zero).2 = true ∧
    (set_owner typeErrorStub ["V3".toList, "Bob".toList]).err = none ∧
    (set_owner typeErrorStub ["V3".toList, "Bob".toList]).stub.state "V3".toList
      ≠ some (jsonMarshalV5C ⟨[], [], [], [], [], "Bob".toList⟩) ∧
    (set_owner typeErrorStub ["V3".toList, "Bob".toList]).stub.state "V3".toList
      = some (jsonMarshalV5C ⟨"x".toList, [], [], [], [], "Bob".toList⟩) := by
  decide

/-! ## The index codec -/

/-- C15. For every slice, nil or not, unmarshalling its marshalled form returns no error
and gives back its sequence of elements; the bytes of an absent or empty index value
decode to the empty sequence, and `Delete` and `init_v5c`, which decode them, return no
error on such a ledger when the stub calls go through; and the bytes `init` writes at the
index key decode, without error, to the empty sequence. -/
theorem index_codec :
    (∀ v : StringSlice,
      decodeIndex (jsonMarshalStrings v) = v.elems ∧
      (jsonUnmarshalStrings (jsonMarshalStrings v)).2 = false) ∧
    decodeIndex [] = [] ∧
    (∀ stub : Stub, (stub.state v5cIndexStr = none ∨ stub.state v5cIndexStr = some []) →
      decodedIndex stub = [] ∧
      (stub.faults = [] →
        (∀ id, (Delete stub [id]).err = none) ∧
        (∀ caseTable id vin mk model rego owner, id ≠ [] → owner ≠ [] →
          (init_v5c caseTable stub [id, vin, mk, model, rego, owner]).err = none))) ∧
    (∀ (stub : Stub) (args : List Text), (init stub args).err = none →
      ∃ b, (init stub args).stub.state v5cIndexStr = some b ∧ decodeIndex b = [] ∧
        (jsonUnmarshalStrings b).2 = false) := by
  refine ⟨?_, by decide, ?_, ?_⟩
  · intro v
    simp [decodeIndex, jsonUnmarshalStrings_jsonMarshalStrings]
  · intro stub h
    constructor
    · rcases h with h | h <;> simp [decodedIndex, h, jsonUnmarshalStrings_nil, StringSlice.elems]
    · intro hok
      obtain ⟨st, fs⟩ := stub
      simp only at hok
      subst hok
      constructor
      · intro id
        rw [Delete_ok]
      · intro caseTable id vin mk model rego owner hid hown
        rw [init_v5c_ok caseTable st id vin mk model rego owner hid hown]
  · intro stub args h
    obtain ⟨st, fs⟩ := stub
    revert h
    rcases args with _ | ⟨a, _ | ⟨b, rest⟩⟩
    · simp [init, failWith]
    · cases hA : Atoi a with
      | none => simp [init, failWith, hA]
      | some n =>
        have hd : decodeIndex (jsonMarshalStrings none) = [] := by decide
        have he : (jsonUnmarshalStrings (jsonMarshalStrings none)).2 = false := by decide
        rcases fs with _ | ⟨f1, _ | ⟨f2, fs⟩⟩ <;> (try cases f1) <;> (try cases f2) <;>
          simp [init, hA, PutState, Stub.nextFails, Stub.advance, hd, he]
    · simp [init, failWith]

set_option maxRecDepth 100000 in
/-- C15 (witness): a three-element slice with a quote and an empty string in it is read
back as it was, and on the empty ledger, whose index key has no entry, `Delete` returns no
error. -/
theorem index_codec_witness :
    decodeIndex (jsonMarshalStrings (some ["a\"b".toList, [], "V1".toList]))
      = ["a\"b".toList, [], "V1".toList] ∧
    (Delete emptyStub ["V1".toList]).err = none :=
  ⟨(index_codec.1 (some ["a\"b".toList, [], "V1".toList])).1,
   ((index_codec.2.2.1 emptyStub (Or.inl rfl)).2 rfl).1 "V1".toList⟩

/-! ## Creation followed by deletion -/

theorem decodedIndex_init_v5c (caseTable : Char → Char) (st : Text → Option Text)
    (id vin mk model rego owner : Text) (hid : id ≠ []) (hown : owner ≠ [])
    (hkey : id ≠ v5cIndexStr) :
    decodedIndex (init_v5c caseTable ⟨st, []⟩ [id, vin, mk, model, rego, owner]).stub
      = decodedIndex ⟨st, []⟩ ++ [id] := by
  have hkey2 : ¬ v5cIndexStr = id := fun h => hkey h.symm
  rw [init_v5c_ok caseTable st id vin mk model rego owner hid hown,
    decodedIndex_stored _ _ _ (if_pos rfl), decodedIndex_mk]
  simp [hkey2, appendId, StringSlice.elems]

theorem removeFirst_append_self (id : Text) (xs : List Text) (h : id ∉ xs) :
    removeFirst id (xs ++ [id]) = xs := by
  have := removeFirst_append id xs [] h
  simpa using this

/-- C17 (amended). For an id other than the index key that the decoded index does not
hold, creation arguments with that id and non-empty id and owner, and stub calls that go
through: `init_v5c` followed by `Delete([id])`, both of which return no error, leaves a
decoded index equal to the one before. -/
theorem create_then_delete (caseTable : Char → Char) (stub : Stub)
    (id vin mk model rego owner : Text) (hok : stub.faults = []) (hid : id ≠ [])
    (hown : owner ≠ []) (hkey : id ≠ v5cIndexStr) (hnew : id ∉ decodedIndex stub) :
    (init_v5c caseTable stub [id, vin, mk, model, rego, owner]).err = none ∧
    (Delete (init_v5c caseTable stub [id, vin, mk, model, rego, owner]).stub [id]).err
      = none ∧
    decodedIndex
        (Delete (init_v5c caseTable stub [id, vin, mk, model, rego, owner]).stub [id]).stub
      = decodedIndex stub := by
  obtain ⟨st, fs⟩ := stub
  simp only at hok
  subst hok
  have hc := decodedIndex_init_v5c caseTable st id vin mk model rego owner hid hown hkey
  rw [init_v5c_ok caseTable st id vin mk model rego owner hid hown] at hc ⊢
  refine ⟨rfl, by rw [Delete_ok], ?_⟩
  rw [decodedIndex_Delete _ id hkey, hc]
  exact removeFirst_append_self id _ hnew

set_option maxRecDepth 100000 in
/-- C17 (witness): from the empty index left by `init(["100"])`, creating `V1` and then
deleting `V1` gives the empty index again. -/
theorem create_then_delete_witness :
    decodedIndex (Delete (init_v5c (fun c => c) (init emptyStub ["100".toList]).stub
        ["V1".toList, "v".toList, "m".toList, "mo".toList, "r".toList, "o".toList]).stub
        ["V1".toList]).stub
      = decodedIndex (init emptyStub ["100".toList]).stub :=
  (create_then_delete (fun c => c) (init emptyStub ["100".toList]).stub "V1".toList
    "v".toList "m".toList "mo".toList "r".toList "o".toList rfl (by decide) (by decide)
    (by decide) (by decide)).2.2

set_option maxRecDepth 100000 in
/-- C17 (counterexample). In the running example the index decodes to `["V1"]` and does
not hold the index key; creating a record under the id `_v5cindex` and deleting it, both
without error, leaves an index that decodes to the empty sequence. -/
theorem create_then_delete_counterexample :
    decodedIndex demoStub = ["V1".toList] ∧
    "_v5cindex".toList ∉ decodedIndex demoStub ∧
    (init_v5c (fun c => c) demoStub
      ["_v5cindex".toList, "v".toList, "m".toList, "mo".toList, "r".toList,
        "o".toList]).err = none ∧
    (Delete (init_v5c (fun c => c) demoStub
      ["_v5cindex".toList, "v".toList, "m".toList, "mo".toList, "r".toList,
        "o".toList]).stub ["_v5cindex".toList]).err = none ∧
    decodedIndex (Delete (init_v5c (fun c => c) demoStub
      ["_v5cindex".toList, "v".toList, "m".toList, "mo".toList, "r".toList,
        "o".toList]).stub ["_v5cindex".toList]).stub ≠ decodedIndex demoStub := by
  decide

/-! ## Lemmas: lower-casing -/

theorem lower_ascii_plain : ∀ n, n < 91 → 65 ≤ n →
    Char.ofNat (n + 32) ≠ '"' ∧ Char.ofNat (n + 32) ≠ '\\' ∧
      0x20 ≤ (Char.ofNat (n + 32)).toNat := by
  decide

theorem toLowerRune_plain (caseTable : Char → Char) (hT : PlainTable caseTable) (c : Char)
    (hc : c ≠ '"' ∧ c ≠ '\\' ∧ 0x20 ≤ c.toNat) :
    toLowerRune caseTable c ≠ '"' ∧ toLowerRune caseTable c ≠ '\\' ∧
      0x20 ≤ (toLowerRune caseTable c).toNat := by
  unfold toLowerRune
  split
  · split
    · rename_i h
      have h1 : 65 ≤ c.toNat := h.1
      have h2 : c.toNat ≤ 90 := h.2
      exact lower_ascii_plain c.toNat (by omega) h1
    · exact hc
  · rename_i h
    exact hT c (by omega)

theorem ToLower_plain (caseTable : Char → Char) (hT : PlainTable caseTable) (s : Text)
    (hs : PlainText s) : PlainText (ToLower caseTable s) := by
  intro c hc
  simp only [ToLower, List.mem_map] at hc
  obtain ⟨d, hd, rfl⟩ := hc
  exact toLowerRune_plain caseTable hT d (hs d hd)

/-- On text in the ASCII range lower-casing does not consult the case table. -/
theorem ToLower_ascii (t1 t2 : Char → Char) (s : Text) (hs : ∀ c ∈ s, c.toNat ≤ 0x7F) :
    ToLower t1 s = ToLower t2 s := by
  simp only [ToLower]
  apply List.map_congr_left
  intro c hc
  simp [toLowerRune, hs c hc]

theorem PlainTable_id : PlainTable (fun c => c) := by
  intro c h
  show c ≠ '"' ∧ c ≠ '\\' ∧ 0x20 ≤ c.toNat
  refine ⟨?_, ?_, by omega⟩
  · intro e
    subst e
    exact absurd h (by decide)
  · intro e
    subst e
    exact absurd h (by decide)

/-! ## Creation: what the concatenated text decodes to -/

set_option maxRecDepth 100000 in
/-- C19. For a case table that sends no character above ASCII to a double quote, a
backslash or a control character (as the Unicode tables do): for every 6-argument list
whose strings hold no double quote, no backslash and no control character, with id and
owner non-empty and id other than the index key, on a stub whose calls go through, the
bytes `init_v5c` builds by concatenation are stored at key `id` and unmarshal without
error to the record of the id and the lower-cased fields; and for the argument list
`["V1", "a\"b", "m", "mo", "r", "o"]`, which holds a double quote, the stored bytes do not
decode to that record. -/
theorem creation_encoding (caseTable : Char → Char) (hT : PlainTable caseTable) :
    (∀ (stub : Stub) (id vin mk model rego owner : Text), stub.faults = [] → id ≠ [] →
      owner ≠ [] → id ≠ v5cIndexStr → PlainText id → PlainText vin → PlainText mk →
      PlainText model → PlainText rego → PlainText owner →
      (init_v5c caseTable stub [id, vin, mk, model, rego, owner]).stub.state id
        = some (v5cString id (ToLower caseTable vin) (ToLower caseTable mk)
            (ToLower caseTable model) (ToLower caseTable rego) (ToLower caseTable owner)) ∧
      jsonUnmarshalV5C (v5cString id (ToLower caseTable vin) (ToLower caseTable mk)
            (ToLower caseTable model) (ToLower caseTable rego) (ToLower caseTable owner))
          V5C.zero
        = (expectedRecord caseTable id vin mk model rego owner, false)) ∧
    (∃ b, (init_v5c caseTable emptyStub
          ["V1".toList, "a\"b".toList, "m".toList, "mo".toList, "r".toList,
            "o".toList]).stub.state "V1".toList = some b ∧
      decodeRecord b ≠ expectedRecord caseTable "V1".toList "a\"b".toList "m".toList
        "mo".toList "r".toList "o".toList) := by
  constructor
  · intro stub id vin mk model rego owner hok hid hown hkey p0 p1 p2 p3 p4 p5
    obtain ⟨st, fs⟩ := stub
    simp only at hok
    subst hok
    rw [init_v5c_ok caseTable st id vin mk model rego owner hid hown]
    refine ⟨by simp [hkey], ?_⟩
    exact jsonUnmarshalV5C_v5cString
      ⟨id, ToLower caseTable vin, ToLower caseTable mk, ToLower caseTable model,
        ToLower caseTable rego, ToLower caseTable owner⟩ V5C.zero p0
      (ToLower_plain caseTable hT vin p1) (ToLower_plain caseTable hT mk p2)
      (ToLower_plain caseTable hT model p3) (ToLower_plain caseTable hT rego p4)
      (ToLower_plain caseTable hT owner p5)
  · have e1 := ToLower_ascii caseTable (fun c => c) "a\"b".toList (by decide)
    have e2 := ToLower_ascii caseTable (fun c => c) "m".toList (by decide)
    have e3 := ToLower_ascii caseTable (fun c => c) "mo".toList (by decide)
    have e4 := ToLower_ascii caseTable (fun c => c) "r".toList (by decide)
    have e5 := ToLower_ascii caseTable (fun c => c) "o".toList (by decide)
    refine ⟨v5cString "V1".toList (ToLower caseTable "a\"b".toList)
      (ToLower caseTable "m".toList) (ToLower caseTable "mo".toList)
      (ToLower caseTable "r".toList) (ToLower caseTable "o".toList), ?_, ?_⟩
    · show (init_v5c caseTable ⟨fun _ => none, []⟩ _).stub.state _ = _
      rw [init_v5c_ok caseTable _ _ _ _ _ _ _ (by decide) (by decide)]
      dsimp only
      rw [if_neg (show ¬ "V1".toList = v5cIndexStr by decide), if_pos rfl]
    · rw [expectedRecord, e1, e2, e3, e4, e5]
      decide

set_option maxRecDepth 100000 in
/-- C19 (witness): with the identity as case table, the bytes stored by the creation of
the running example unmarshal without error to the lower-cased record. -/
theorem creation_encoding_witness :
    jsonUnmarshalV5C (v5cString "V1".toList
        (ToLower (fun c => c) "1HGCM82633A004352".toList)
        (ToLower (fun c => c) "Honda".toList) (ToLower (fun c => c) "Civic".toList)
        (ToLower (fun c => c) "ABC123".toList) (ToLower (fun c => c) "Alice".toList))
        V5C.zero
      = (expectedRecord (fun c => c) "V1".toList "1HGCM82633A004352".toList "Honda".toList
          "Civic".toList "ABC123".toList "Alice".toList, false) :=
  ((creation_encoding (fun c => c) PlainTable_id).1 (init emptyStub ["100".toList]).stub
    "V1".toList "1HGCM82633A004352".toList "Honda".toList "Civic".toList "ABC123".toList
    "Alice".toList rfl (by decide) (by decide) (by decide) (by decide) (by decide)
    (by decide) (by decide) (by decide) (by decide)).2

end CarLease
